import Mathlib

/-!
Verification of the SPV peer core of ravenwallet-android
(src/app/src/main/jni/core/BRPeer.c) against its natural-language
specification.

The development shallowly embeds the message acceptors of BRPeer.c.
Payloads are lists of bytes (naturals, reduced mod 256 at every read);
external collaborators that the spec places out of scope (the X16R /
X16Rv2 hashes, the ethash light verifier, the transaction and
merkle-block parsers) are represented symbolically: the embedding
records which function the code applies to which byte ranges, which is
exactly what the claims talk about.  Floating-point fields of the C
session state (pingTime, startTime and the EMA update) are elided; no
claim mentions them.  The C double sentinel DBL_MAX used for
disconnectTime is modelled as the `none` case of an `Option`.
-/

namespace RavenPeer

/-! ### Byte-level primitives (BRInt.h reads) -/

/-- Byte of a payload at an index; out-of-range reads yield 0 (the C code
never performs them on the inputs the theorems quantify over). -/
def byteAt (msg : List Nat) (i : Nat) : Nat := msg.getD i 0 % 256

/-- UInt16GetLE. -/
def uint16GetLE (msg : List Nat) (off : Nat) : Nat :=
  byteAt msg off + 256 * byteAt msg (off + 1)

/-- UInt32GetLE. -/
def uint32GetLE (msg : List Nat) (off : Nat) : Nat :=
  byteAt msg off + 256 * byteAt msg (off + 1) + 65536 * byteAt msg (off + 2) +
    16777216 * byteAt msg (off + 3)

/-- UInt64GetLE. -/
def uint64GetLE (msg : List Nat) (off : Nat) : Nat :=
  uint32GetLE msg off + 4294967296 * uint32GetLE msg (off + 4)

/-- A contiguous byte range of a payload (the C code passes pointers into
the message buffer; the embedding passes the denoted slice). -/
def slice (msg : List Nat) (off len : Nat) : List Nat :=
  (msg.drop off).take len

/-- Modelled from the spec: the VarInt codec (BRVarInt of BRInt.h, which is
repository code not under src/).  The spec's glossary describes it as the
wire's standard length-compact integer encoding: a first byte below 0xfd is
the value itself, 0xfd/0xfe/0xff announce a 16/32/64-bit little-endian
value.  Returns (value, bytes consumed); 0 bytes consumed on an empty
buffer models the acceptors' `off == 0` malformed-message guard. -/
def bVarInt (msg : List Nat) : Nat × Nat :=
  match msg with
  | [] => (0, 0)
  | b :: _ =>
    if b % 256 = 253 then (uint16GetLE msg 1, 3)
    else if b % 256 = 254 then (uint32GetLE msg 1, 5)
    else if b % 256 = 255 then (uint64GetLE msg 1, 9)
    else (b % 256, 1)

/-! ### Chain constants

Modelled from the spec: the activation constants live in chain-parameter
headers of the repository that are not under src/.  The concrete values
are the Ravencoin mainnet ones; every proof below treats them
symbolically except for the concrete witnesses. -/

def KAWPOW_ActivationTime : Nat := 1588788000

def X16RV2ActivationTime : Nat := 1569945600

def BLOCK_MAX_TIME_DRIFT : Nat := 43200

/-! ### Symbolic block-hash derivations

The proof-of-work hash functions are external collaborators (out of scope
per the spec), so a block-hash computation is recorded as a symbolic
expression naming the function applied and the exact byte ranges fed to
it.  `kawpow hdr mix nonce` stands for
light_verify(sha256d(hdr), mix, nonce) exactly as BRPeer.c composes it. -/

inductive HashExpr
  | x16r (header : List Nat)
  | x16rv2 (header : List Nat)
  | kawpow (header : List Nat) (mix : List Nat) (nonce : Nat)
deriving DecidableEq

/-- Follow-up request issued by the headers acceptor, with its two
locators (locator 0 first, locator 1 second, as in the C array). -/
inductive SentMsg
  | getheaders (l0 l1 : HashExpr)
  | getblocks (l0 l1 : HashExpr)
deriving DecidableEq

/-- The X16R-era selection the C code performs on an 80-byte header:
X16Rv2 when the deciding timestamp has reached the X16Rv2 activation,
X16R before. -/
def eraHash (t : Nat) (b : List Nat) : HashExpr :=
  if X16RV2ActivationTime ≤ t then HashExpr.x16rv2 b else HashExpr.x16r b

/-! ### The headers acceptor (_PeerAcceptHeadersMessage) -/

/-- The scan state the acceptor derives from a headers payload:
startNewHeader / startNewHeaderSize (index and byte offset at which
121-byte records begin; startNewHeader stays count+1 when the detection
does not fire, as in the C initialisation), the first and last scanned
timestamps, and the final `timestamp` variable used by the follow-up
logic. -/
structure HeadersScan where
  startNewHeader : Nat
  startNewHeaderSize : Nat
  timestampFirst : Nat
  timestampLast : Nat
  timestamp : Nat
deriving DecidableEq

/-- First while-loop of the detection branch: advance `next` while the
scanned timestamp is positive and below the KAWPOW activation, reading at
the 81-byte stride; `++next` happens before the bound check, so the loop
leaves next = count when it runs off the end.  The fuel argument (always
count + 1 at the call site, a bound the loop cannot exhaust because next
strictly increases below count) only discharges termination. -/
def findSwitch (msg : List Nat) (off count : Nat) : Nat → Nat → Nat → Nat × Nat
  | 0, next, ts => (next, ts)
  | fuel + 1, next, ts =>
    if 0 < ts ∧ ts < KAWPOW_ActivationTime then
      if next + 1 < count then
        findSwitch msg off count fuel (next + 1) (uint32GetLE msg (off + 81 * (next + 1) + 68))
      else (next + 1, ts)
    else (next, ts)

/-- Second while-loop of the detection branch: advance while the scanned
timestamp is strictly above the activation, reading at the 121-byte
stride from startNewHeaderSize; the read uses new_count and increments it
afterwards, exactly as the C post-increment does.  Fuel as in
findSwitch. -/
def scanTail (msg : List Nat) (snhs count : Nat) : Nat → Nat → Nat → Nat → Nat × Nat × Nat
  | 0, next, newCount, ts => (next, newCount, ts)
  | fuel + 1, next, newCount, ts =>
    if KAWPOW_ActivationTime < ts then
      if next + 1 < count then
        scanTail msg snhs count fuel (next + 1) (newCount + 1)
          (uint32GetLE msg (snhs + 121 * newCount + 68))
      else (next + 1, newCount, ts)
    else (next, newCount, ts)

/-- The timestamp read by one step of the getblocks index walk: the
stride is chosen by comparing the pre-increment index with
startNewHeader, the read happens at the post-increment index, and an
index past the batch yields 0 (the C ternary). -/
def walkRead (msg : List Nat) (off snh snhs count lastOld : Nat) : Nat :=
  if lastOld + 1 < count then
    if lastOld < snh then uint32GetLE msg (off + 81 * (lastOld + 1) + 68)
    else uint32GetLE msg (snhs + 121 * (lastOld + 1 - snh) + 68)
  else 0

/-- The while-loop of the getblocks index walk: keep stepping while the
timestamp is positive and more than 7 days + max drift older than
earliestKeyTime.  The fuel argument (always called with count + 2, an
upper bound on the number of iterations the C loop can perform) only
discharges termination; it is never exhausted on reachable inputs. -/
def walkLast (msg : List Nat) (off snh snhs count ekt : Nat) :
    Nat → Nat → Nat → Nat × Nat
  | 0, last, ts => (last, ts)
  | fuel + 1, last, ts =>
    if 0 < ts ∧ ts + 604800 + BLOCK_MAX_TIME_DRIFT < ekt then
      walkLast msg off snh snhs count ekt fuel (last + 1)
        (walkRead msg off snh snhs count last)
    else (last, ts)

/-- Locator 0 as recomputed at the end of the getblocks index walk
(w = final (last, timestamp)): kawpow at the 121-byte-stride offsets when
the timestamp reached the activation, otherwise the X16R-era hash of the
81-byte-stride header at index last - 1. -/
def walkLocator (msg : List Nat) (off snh snhs : Nat) (w : Nat × Nat) : HashExpr :=
  if KAWPOW_ActivationTime ≤ w.2 then
    HashExpr.kawpow (slice msg (snhs + 121 * (w.1 - snh)) 80)
      (slice msg (snhs + 121 * (w.1 - snh) + 88) 32)
      (uint64GetLE msg (snhs + 121 * (w.1 - snh) + 80))
  else if X16RV2ActivationTime ≤ w.2 then
    HashExpr.x16rv2 (slice msg (off + 81 * (w.1 - 1)) 80)
  else HashExpr.x16r (slice msg (off + 81 * (w.1 - 1)) 80)

/-- The timestamp scan of the headers acceptor (lines 619-675 of
BRPeer.c): initial `timestamp` from the 81-byte-stride last header,
timestamp_first from header 0, then — only when
off + 81 * (count + 1) < msgLen — the switch detection and the
121-byte-stride walk to the last timestamp. -/
def headersScanFrom (msg : List Nat) (msgLen count off : Nat) : HeadersScan :=
  let timestamp0 := if 0 < count then uint32GetLE msg (off + 81 * (count - 1) + 68) else 0
  let tsFirst := if 0 < count then uint32GetLE msg (off + 68) else 0
  if off + 81 * (count + 1) < msgLen then
    let fs := findSwitch msg off count (count + 1) 0 tsFirst
    if fs.1 = count then
      { startNewHeader := count + 1, startNewHeaderSize := 0,
        timestampFirst := tsFirst, timestampLast := fs.2, timestamp := fs.2 }
    else
      let snhs := off + 81 * fs.1
      let st := scanTail msg snhs count (count + 1) fs.1 0 fs.2
      { startNewHeader := fs.1, startNewHeaderSize := snhs,
        timestampFirst := tsFirst, timestampLast := st.2.2, timestamp := st.2.2 }
  else
    { startNewHeader := count + 1, startNewHeaderSize := 0,
      timestampFirst := tsFirst, timestampLast := tsFirst, timestamp := timestamp0 }

/-- The initial locator computation (lines 684-811): the four-way branch
on timestamp_first / timestamp_last / timestamp.  Returns
(locators[0], locators[1]). -/
def headersLocators (msg : List Nat) (msgLen count off : Nat) (sc : HeadersScan) :
    HashExpr × HashExpr :=
  if KAWPOW_ActivationTime ≤ sc.timestampFirst ∧ KAWPOW_ActivationTime ≤ sc.timestampLast then
    (HashExpr.kawpow (slice msg (msgLen - 121) 80) (slice msg (msgLen - 33) 32)
       (uint64GetLE msg (msgLen - 41)),
     HashExpr.kawpow (slice msg off 80) (slice msg (off + 88) 32)
       (uint64GetLE msg (off + 80)))
  else if sc.timestampFirst < KAWPOW_ActivationTime ∧
      KAWPOW_ActivationTime < sc.timestampLast then
    (HashExpr.kawpow (slice msg (msgLen - 121) 80) (slice msg (msgLen - 33) 32)
       (uint64GetLE msg (msgLen - 41)),
     if X16RV2ActivationTime ≤ sc.timestampFirst then HashExpr.x16rv2 (slice msg off 80)
     else HashExpr.x16r (slice msg off 80))
  else if X16RV2ActivationTime ≤ sc.timestamp then
    (HashExpr.x16rv2 (slice msg (off + 81 * (count - 1)) 80),
     HashExpr.x16rv2 (slice msg off 80))
  else
    (HashExpr.x16r (slice msg (off + 81 * (count - 1)) 80),
     HashExpr.x16r (slice msg off 80))

/-- The byte range the relay loop hands to BRMerkleBlockParse for header
index i: 81 bytes at the 81-byte stride from the payload start below
startNewHeader, 121 bytes at the 121-byte stride from startNewHeaderSize
from startNewHeader on. -/
def headerSliceAt (msg : List Nat) (off snh snhs i : Nat) : List Nat :=
  if snh ≤ i then slice msg (snhs + 121 * (i - snh)) 121
  else slice msg (off + 81 * i) 81

/-- The relay loop (lines 885-914): parse and validate each header in
wire order; stop with failure at the first invalid one, otherwise relay
every parsed block upward.  `isValid` stands for the external
BRMerkleBlockParse + BRMerkleBlockIsValid composition applied to the
denoted byte range (the per-iteration timestamp read of the C loop is
dead code and is not modelled).  Fuel (count + 1 at the call site) only
discharges termination. -/
def relayLoop (isValid : List Nat → Bool) (msg : List Nat) (off snh snhs count : Nat) :
    Nat → Nat → Bool × List (List Nat)
  | 0, _i => (true, [])
  | fuel + 1, i =>
    if i < count then
      let blk := headerSliceAt msg off snh snhs i
      if isValid blk then
        let rest := relayLoop isValid msg off snh snhs count fuel (i + 1)
        (rest.1, blk :: rest.2)
      else (false, [])
    else (true, [])

/-- Everything observable about one run of the headers acceptor: the
return value, the scan state, the follow-up requests sent and the blocks
relayed upward (in wire order). -/
structure HeadersResult where
  r : Bool
  scan : HeadersScan
  sent : List SentMsg
  relayed : List (List Nat)
deriving DecidableEq

/-- _PeerAcceptHeadersMessage.  `isValid` is the external header
validation, `ekt` the session's earliestKeyTime. -/
def PeerAcceptHeadersMessage (isValid : List Nat → Bool) (ekt : Nat) (msg : List Nat) :
    HeadersResult :=
  let msgLen := msg.length
  let cv := bVarInt msg
  let count := cv.1
  let off := cv.2
  if off = 0 ∨ msgLen < off + 81 * count then
    { r := false, scan := ⟨count + 1, 0, 0, 0, 0⟩, sent := [], relayed := [] }
  else
    let sc := headersScanFrom msg msgLen count off
    if 2000 ≤ count ∨
        (0 < sc.timestamp ∧ ekt ≤ sc.timestamp + 604800 + BLOCK_MAX_TIME_DRIFT) then
      let ls := headersLocators msg msgLen count off sc
      let followUp :=
        if 0 < sc.timestamp ∧ ekt ≤ sc.timestamp + 604800 + BLOCK_MAX_TIME_DRIFT then
          let w := walkLast msg off sc.startNewHeader sc.startNewHeaderSize count ekt
            (count + 2) 1 (walkRead msg off sc.startNewHeader sc.startNewHeaderSize count 0)
          SentMsg.getblocks (walkLocator msg off sc.startNewHeader sc.startNewHeaderSize w)
            ls.2
        else SentMsg.getheaders ls.1 ls.2
      let rl := relayLoop isValid msg off sc.startNewHeader sc.startNewHeaderSize count
        (count + 1) 0
      { r := rl.1, scan := sc, sent := [followUp], relayed := rl.2 }
    else { r := false, scan := sc, sent := [], relayed := [] }

/-- The 81-byte-stride timestamp of header i (field at offset +68). -/
def tsAt81 (msg : List Nat) (off i : Nat) : Nat :=
  uint32GetLE msg (off + 81 * i + 68)

/-! ### Session state (BRPeerContext) and the remaining acceptors -/

inductive BRPeerStatus
  | disconnected
  | connecting
  | connected
deriving DecidableEq

/-- The result of parsing a merkleblock: an identity for the block plus
the matched transaction hashes BRMerkleBlockTxHashes extracts from it
(both computed by external collaborators, supplied as a parser
parameter). -/
structure MBlock where
  id : Nat
  matched : List (List Nat)
deriving DecidableEq

/-- The external parsers and validators the acceptors call
(BRTransactionParse, BRMerkleBlockParse, BRMerkleBlockIsValid, and the
header validation of the headers relay loop).  They are out-of-scope
collaborators per the spec, so the model quantifies over them. -/
structure Parsers where
  parseTx : List Nat → Option (List Nat)
  parseMerkle : List Nat → Option MBlock
  mbValid : MBlock → Bool
  hdrValid : List Nat → Bool

/-- Upward callbacks invoked and messages sent, observed as events in
invocation order.  Callback identities are naturals; a pong/mempool
callback registered as `none` models a NULL function pointer, which the
C code pops without invoking. -/
inductive PEvent
  | connectedEvt
  | disconnectedE (err : Nat)
  | hasTx (h : List Nat)
  | relayedTx (h : List Nat)
  | relayedBlock (id : Nat)
  | relayedHeader (bytes : List Nat)
  | sentVerackMsg
  | sentAddr
  | sentPong
  | sentPing
  | sentGetdata (txs bks : List (List Nat))
  | sentGetblocksHashes (l0 l1 : List Nat)
  | sentGetheaders (l0 l1 : HashExpr)
  | sentGetblocks (l0 l1 : HashExpr)
  | pongCb (id : Nat) (ok : Bool)
  | mempoolCb (id : Nat) (ok : Bool)
  | otherAcceptor
deriving DecidableEq

/-- The mutable session state of BRPeerContext that the claims touch.
pingTime / startTime (floating-point timing) are elided; disconnectTime
is `none` for the DBL_MAX sentinel. -/
structure PeerState where
  status : BRPeerStatus
  sentVerack : Bool
  gotVerack : Bool
  sentGetaddr : Bool
  sentFilter : Bool
  sentGetdata : Bool
  sentMempool : Bool
  sentGetblocks : Bool
  needsFilterUpdate : Bool
  nonce : Nat
  version : Nat
  lastblock : Nat
  earliestKeyTime : Nat
  currentBlockHeight : Nat
  useragent : List Nat
  lastBlockHash : List Nat
  currentBlock : Option Nat
  currentBlockTxHashes : List (List Nat)
  knownBlockHashes : List (List Nat)
  knownTxHashes : List (List Nat)
  knownTxHashSet : List (List Nat)
  pongQueue : List (Option Nat)
  mempoolCallback : Option Nat
  disconnectTime : Option Nat
deriving DecidableEq

/-- The state BRPeerNew allocates (all flags clear, empty containers,
DBL_MAX deadlines), parameterised by the owner-supplied bootstrap data
and the session nonce chosen at version-send time. -/
def initState (nonce ekt tip : Nat) : PeerState :=
  { status := .disconnected, sentVerack := false, gotVerack := false,
    sentGetaddr := false, sentFilter := false, sentGetdata := false,
    sentMempool := false, sentGetblocks := false, needsFilterUpdate := false,
    nonce := nonce, version := 0, lastblock := 0, earliestKeyTime := ekt,
    currentBlockHeight := tip, useragent := [], lastBlockHash := List.replicate 32 0,
    currentBlock := none, currentBlockTxHashes := [], knownBlockHashes := [],
    knownTxHashes := [], knownTxHashSet := [], pongQueue := [],
    mempoolCallback := none, disconnectTime := none }

/-! #### _PeerAddKnownTxHashes

Modelled from the spec for the container primitives: array_add appends
and BRSetAdd / BRSetContains are hash-set insertion / membership
(BRArray.h and BRSet.c are repository code not under src/; the set is
modelled as a membership list).  The C branch that rebuilds the set after
a realloc moved the array re-establishes exactly set = array contents, so
both C branches have the single semantics below: append the hash and add
it to the set when it is not yet a member. -/
def addKnownTxHashesFn :
    List (List Nat) × List (List Nat) → List (List Nat) → List (List Nat) × List (List Nat)
  | p, [] => p
  | (lst, set), h :: rest =>
    if h ∈ set then addKnownTxHashesFn (lst, set) rest
    else addKnownTxHashesFn (lst ++ [h], h :: set) rest

/-- _PeerAddKnownTxHashes acting on the session state. -/
def PeerAddKnownTxHashes (st : PeerState) (l : List (List Nat)) : PeerState :=
  let p := addKnownTxHashesFn (st.knownTxHashes, st.knownTxHashSet) l
  { st with knownTxHashes := p.1, knownTxHashSet := p.2 }

/-! #### Handshake acceptors -/

/-- _PeerDidConnect: transition to Connected, clear the disconnect
deadline and invoke the connected callback, exactly when the status is
Connecting and both verack flags hold. -/
def PeerDidConnect (st : PeerState) : PeerState × List PEvent :=
  if st.status = BRPeerStatus.connecting ∧ st.sentVerack = true ∧ st.gotVerack = true then
    ({ st with status := .connected, disconnectTime := none }, [PEvent.connectedEvt])
  else (st, [])

/-- _PeerAcceptVersionMessage: length and minimum-protocol checks, store
version / useragent / lastblock, send verack (PeerSendVerackMessage sets
sentVerack; note it does not call _PeerDidConnect).  The peer-identity
fields (services, timestamp, addresses) parsed by the C code are not part
of the session state the claims mention and are elided. -/
def PeerAcceptVersionMessage (st : PeerState) (msg : List Nat) :
    PeerState × Bool × List PEvent :=
  let msgLen := msg.length
  if msgLen < 85 then (st, false, [])
  else
    let v := uint32GetLE msg 0
    let sv := bVarInt (msg.drop 80)
    let off := 80 + sv.2
    if msgLen < off + sv.1 + 4 then (st, false, [])
    else if v < 70026 then (st, false, [])
    else
      ({ st with
          version := v
          useragent := slice msg off sv.1
          lastblock := uint32GetLE msg (off + sv.1)
          sentVerack := true },
       true, [PEvent.sentVerackMsg])

/-- _PeerAcceptVerackMessage: a duplicate verack is logged and ignored;
otherwise set gotVerack and run _PeerDidConnect (the verack-time ping
estimate is floating-point timing and elided). -/
def PeerAcceptVerackMessage (st : PeerState) (_msg : List Nat) :
    PeerState × Bool × List PEvent :=
  if st.gotVerack then (st, true, [])
  else
    let p := PeerDidConnect { st with gotVerack := true }
    (p.1, true, p.2)

/-! #### Inventory acceptor -/

/-- The item-parsing loop of _PeerAcceptInvMessage: collect the tx
(type 1) and block (type 2) hashes, in wire order. -/
def parseInvItems (msg : List Nat) : Nat → Nat → List (List Nat) × List (List Nat)
  | _, 0 => ([], [])
  | off, n + 1 =>
    let t := uint32GetLE msg off
    let h := slice msg (off + 4) 32
    let rest := parseInvItems msg (off + 36) n
    if t = 1 then (h :: rest.1, rest.2)
    else if t = 2 then (rest.1, h :: rest.2)
    else rest

/-- The knownBlockHashes cap: while more than MAX_GETDATA_HASHES entries,
drop the oldest third.  Fuel (the list length + 1 at the call site, which
the loop cannot exhaust because each round drops at least a third of a
non-empty list) only discharges termination. -/
def trimKnownBlockHashes : Nat → List (List Nat) → List (List Nat)
  | 0, l => l
  | fuel + 1, l =>
    if 50000 < l.length then trimKnownBlockHashes fuel (l.drop (l.length / 3))
    else l

/-- The main branch of _PeerAcceptInvMessage, reached after the
malformed / too-many-items / tx-before-filter / sanity / tarpit guards,
acting on the parsed tx and block hash lists. -/
def invMainBranch (st : PeerState) (txs bks : List (List Nat)) :
    PeerState × Bool × List PEvent :=
  let bks1 := if st.sentFilter = false ∧ st.sentGetblocks = false then [] else bks
  let bks2 := if bks1.length = 1 ∧ st.lastBlockHash = bks1.headD [] then [] else bks1
  let lastBH := if bks2.length = 1 then bks2.headD [] else st.lastBlockHash
  let kbh := trimKnownBlockHashes ((st.knownBlockHashes ++ bks2).length + 1)
    (st.knownBlockHashes ++ bks2)
  let bks3 := if st.needsFilterUpdate then [] else bks2
  let hasEvts := (txs.filter (fun h => decide (h ∈ st.knownTxHashSet))).map PEvent.hasTx
  let newTxs := txs.filter (fun h => !decide (h ∈ st.knownTxHashSet))
  let kp := addKnownTxHashesFn (st.knownTxHashes, st.knownTxHashSet) newTxs
  let gdEvts := if 0 < newTxs.length ∨ 0 < bks3.length then
      [PEvent.sentGetdata newTxs bks3] else []
  let gbEvts := if 500 ≤ bks3.length then
      [PEvent.sentGetblocksHashes (bks3.getLastD []) (bks3.headD [])] else []
  let mpEvts := if 0 < txs.length ∧ st.mempoolCallback ≠ none then
      ([PEvent.sentPing] : List PEvent) else []
  let pq := if 0 < txs.length ∧ st.mempoolCallback ≠ none then
      st.pongQueue ++ [st.mempoolCallback] else st.pongQueue
  let mcb := if 0 < txs.length ∧ st.mempoolCallback ≠ none then none
    else st.mempoolCallback
  ({ st with
      lastBlockHash := lastBH
      knownBlockHashes := kbh
      knownTxHashes := kp.1
      knownTxHashSet := kp.2
      sentGetdata := if 0 < newTxs.length ∨ 0 < bks3.length then true else st.sentGetdata
      pongQueue := pq
      mempoolCallback := mcb },
   true, hasEvts ++ gdEvts ++ gbEvts ++ mpEvts)

/-- _PeerAcceptInvMessage. -/
def PeerAcceptInvMessage (st : PeerState) (msg : List Nat) :
    PeerState × Bool × List PEvent :=
  let msgLen := msg.length
  let cv := bVarInt msg
  let count := cv.1
  let off := cv.2
  if off = 0 ∨ msgLen < off + count * 36 then (st, false, [])
  else if 50000 < count then (st, true, [PEvent.otherAcceptor])
  else
    let p := parseInvItems msg off count
    if 0 < p.1.length ∧ st.sentFilter = false ∧ st.sentMempool = false ∧
        st.sentGetblocks = false then (st, false, [])
    else if 10000 < p.1.length then (st, false, [])
    else if 0 < st.currentBlockHeight ∧ 2 < p.2.length ∧ p.2.length < 500 ∧
        st.currentBlockHeight + st.knownBlockHashes.length + p.2.length < st.lastblock then
      (st, false, [])
    else invMainBranch st p.1 p.2

/-! #### tx / merkleblock acceptors -/

/-- Remove the first element equal to h (UInt256Eq comparison). -/
def eraseFirst : List (List Nat) → List Nat → List (List Nat)
  | [], _ => []
  | a :: tl, h => if a = h then tl else a :: eraseFirst tl h

/-- Removal of an arriving tx hash from currentBlockTxHashes: the C loop
walks from the tail and removes the first match it meets, i.e. the last
occurrence. -/
def eraseFromTail (l : List (List Nat)) (h : List Nat) : List (List Nat) :=
  (eraseFirst l.reverse h).reverse

/-- _PeerAcceptTxMessage. -/
def PeerAcceptTxMessage (ps : Parsers) (st : PeerState) (msg : List Nat) :
    PeerState × Bool × List PEvent :=
  match ps.parseTx msg with
  | none => (st, false, [])
  | some h =>
    if st.sentFilter = false ∧ st.sentGetdata = false then (st, false, [])
    else
      match st.currentBlock with
      | none => (st, true, [PEvent.relayedTx h])
      | some b =>
        let pending := eraseFromTail st.currentBlockTxHashes h
        if pending = [] then
          ({ st with currentBlock := none, currentBlockTxHashes := [] }, true,
           [PEvent.relayedTx h, PEvent.relayedBlock b])
        else ({ st with currentBlockTxHashes := pending }, true, [PEvent.relayedTx h])

/-- _PeerAcceptMerkleblockMessage: parse, validate, require a loaded
filter or a sent getdata; append the matched hashes not already known, in
reverse order, to currentBlockTxHashes; retain the block when any are
pending, otherwise relay it immediately. -/
def PeerAcceptMerkleblockMessage (ps : Parsers) (st : PeerState) (msg : List Nat) :
    PeerState × Bool × List PEvent :=
  match ps.parseMerkle msg with
  | none => (st, false, [])
  | some mb =>
    if ps.mbValid mb = false then (st, false, [])
    else if st.sentFilter = false ∧ st.sentGetdata = false then (st, false, [])
    else
      let pending := st.currentBlockTxHashes ++
        (mb.matched.filter (fun h => !decide (h ∈ st.knownTxHashSet))).reverse
      if pending = [] then (st, true, [PEvent.relayedBlock mb.id])
      else ({ st with currentBlock := some mb.id, currentBlockTxHashes := pending },
            true, [])

/-! #### ping / pong -/

/-- _PeerAcceptPingMessage: echo the payload as pong when it carries at
least a nonce. -/
def PeerAcceptPingMessage (st : PeerState) (msg : List Nat) :
    PeerState × Bool × List PEvent :=
  if msg.length < 8 then (st, false, [])
  else (st, true, [PEvent.sentPong])

/-- _PeerAcceptPongMessage: require 8 payload bytes, the session nonce
and a non-empty queue, then pop the head callback and invoke it with
success (the explicit ping-timing EMA is floating-point and elided). -/
def PeerAcceptPongMessage (st : PeerState) (msg : List Nat) :
    PeerState × Bool × List PEvent :=
  if msg.length < 8 then (st, false, [])
  else if uint64GetLE msg 0 ≠ st.nonce then (st, false, [])
  else
    match st.pongQueue with
    | [] => (st, false, [])
    | cb :: rest =>
      ({ st with pongQueue := rest }, true,
       match cb with
       | some c => [PEvent.pongCb c true]
       | none => [])

/-- BRPeerSendPing: record the callback at the tail of the pong queue and
send a ping (startTime, used only for the elided timing, is not
modelled). -/
def BRPeerSendPing (st : PeerState) (cb : Option Nat) : PeerState × List PEvent :=
  ({ st with pongQueue := st.pongQueue ++ [cb] }, [PEvent.sentPing])

/-- The tail of _peerThreadRoutine after the receive loop exits: drain
the pong queue invoking every callback with failure in FIFO order, invoke
a pending mempool callback with failure, then surface
disconnected(error). -/
def peerThreadFinish (st : PeerState) (err : Nat) : List PEvent :=
  st.pongQueue.filterMap (fun cb => cb.map (fun c => PEvent.pongCb c false)) ++
    (match st.mempoolCallback with
     | some c => [PEvent.mempoolCb c false]
     | none => []) ++ [PEvent.disconnectedE err]

/-! #### The dispatcher (_PeerAcceptMessage) and the receive loop -/

/-- The command strings the dispatcher compares with a 12-byte bound;
`other` covers the acceptors no claim touches (addr, getdata, notfound,
reject, feefilter, assetdata — none of which mutates the session
fields the claims mention) and `unknown` the logged-and-ignored
commands. -/
inductive MsgType
  | version
  | verack
  | inv
  | tx
  | headers
  | getaddr
  | ping
  | pong
  | merkleblock
  | other
  | unknown
deriving DecidableEq

/-- _PeerAcceptMessage: a non-tx message with a merkleblock in flight
abandons the in-flight block and fails without invoking the message's
acceptor; otherwise dispatch on the command.  The headers acceptor
mutates no session field, so its result is adapted to events only. -/
def PeerAcceptMessage (ps : Parsers) (st : PeerState) (t : MsgType) (msg : List Nat) :
    PeerState × Bool × List PEvent :=
  if st.currentBlock ≠ none ∧ t ≠ MsgType.tx then
    ({ st with currentBlock := none, currentBlockTxHashes := [] }, false, [])
  else
    match t with
    | .version => PeerAcceptVersionMessage st msg
    | .verack => PeerAcceptVerackMessage st msg
    | .inv => PeerAcceptInvMessage st msg
    | .tx => PeerAcceptTxMessage ps st msg
    | .headers =>
      let res := PeerAcceptHeadersMessage ps.hdrValid st.earliestKeyTime msg
      (st, res.r,
       res.sent.map (fun s => match s with
         | SentMsg.getheaders a b => PEvent.sentGetheaders a b
         | SentMsg.getblocks a b => PEvent.sentGetblocks a b) ++
       res.relayed.map PEvent.relayedHeader)
    | .getaddr => (st, true, [PEvent.sentAddr])
    | .ping => PeerAcceptPingMessage st msg
    | .pong => PeerAcceptPongMessage st msg
    | .merkleblock => PeerAcceptMerkleblockMessage ps st msg
    | .other => (st, true, [PEvent.otherAcceptor])
    | .unknown => (st, true, [PEvent.otherAcceptor])

/-- The receive loop's message processing: accept messages in wire order,
stopping (with error) at the first acceptor failure, accumulating the
events of the accepted prefix. -/
def runMsgs (ps : Parsers) : PeerState → List (MsgType × List Nat) →
    PeerState × Bool × List PEvent
  | st, [] => (st, true, [])
  | st, (t, m) :: rest =>
    let s1 := PeerAcceptMessage ps st t m
    if s1.2.1 then
      let s2 := runMsgs ps s1.1 rest
      (s2.1, s2.2.1, s1.2.2 ++ s2.2.2)
    else (s1.1, false, s1.2.2)

/-- Repeated pong acceptance (the receive loop delivering m pong
messages with the same payload), stopping at the first failure. -/
def processPongs (msg : List Nat) : Nat → PeerState → PeerState × List PEvent
  | 0, st => (st, [])
  | m + 1, st =>
    let s1 := PeerAcceptPongMessage st msg
    if s1.2.1 then
      let s2 := processPongs msg m s1.1
      (s2.1, s1.2.2 ++ s2.2)
    else (s1.1, s1.2.2)

/-! ### Event extraction helpers -/

/-- The hashes surfaced through has_tx, in order. -/
def hasTxHashes (evts : List PEvent) : List (List Nat) :=
  evts.filterMap (fun e => match e with | PEvent.hasTx h => some h | _ => none)

/-- The tx hashes requested through getdata, in order. -/
def getdataTxs (evts : List PEvent) : List (List Nat) :=
  (evts.filterMap (fun e => match e with
    | PEvent.sentGetdata txs _ => some txs
    | _ => none)).flatten

/-! ### Concrete payloads and states for the witnesses and counterexamples -/

/-- 4-byte little-endian encoding. -/
def le32 (n : Nat) : List Nat :=
  [n % 256, n / 256 % 256, n / 65536 % 256, n / 16777216 % 256]

/-- 8-byte little-endian encoding. -/
def le64 (n : Nat) : List Nat :=
  le32 (n % 4294967296) ++ le32 (n / 4294967296)

/-- An 81-byte classical header record with the given timestamp (at
offset 68) and a trailing VarInt-0 tx count. -/
def clsHeader (t : Nat) : List Nat :=
  List.replicate 68 0 ++ le32 t ++ List.replicate 9 0

/-- A 121-byte post-activation header record with the given timestamp. -/
def kawHeader (t : Nat) : List Nat :=
  List.replicate 68 0 ++ le32 t ++ List.replicate 49 0

/-- A timestamp before the X16Rv2 activation. -/
def tsOld : Nat := 1500000000

/-- A timestamp in the X16Rv2 era (before the KAWPOW activation). -/
def tsV2 : Nat := 1575000000

/-- A timestamp at or after the KAWPOW activation. -/
def tsNew : Nat := 1600000000

/-- A header validator accepting everything (stands for a remote peer
sending only self-consistent headers). -/
def allValid : List Nat → Bool := fun _ => true

/-- Straddling headers batch: one classical header followed by three
121-byte ones (enough for the detection guard to fire). -/
def exMsgC1w : List Nat :=
  [4] ++ clsHeader tsOld ++ kawHeader tsNew ++ kawHeader tsNew ++ kawHeader tsNew

/-- Straddling headers batch with a single 121-byte header (too few for
the detection guard). -/
def exMsgC1c : List Nat := [2] ++ clsHeader tsOld ++ kawHeader tsNew

/-- Classical batch whose first header predates the X16Rv2 activation
while the second is inside the X16Rv2 era. -/
def exMsgC2 : List Nat := [2] ++ clsHeader tsOld ++ clsHeader tsV2

/-- A one-header classical batch in the X16Rv2 era. -/
def exMsgC2w : List Nat := [1] ++ clsHeader tsV2

/-- A single classical header far older than any wallet. -/
def exMsgC10 : List Nat := [1] ++ clsHeader 10

/-- Parsers that never succeed (no claim exercising them). -/
def trivParsers : Parsers :=
  { parseTx := fun _ => none, parseMerkle := fun _ => none,
    mbValid := fun _ => false, hdrValid := fun _ => false }

/-- Parsers for the merkleblock-assembly witness: every tx payload is its
own hash, every merkleblock parses to block 7 with matched hashes
[[1], [2]]. -/
def mbParsers : Parsers :=
  { parseTx := fun m => some m, parseMerkle := fun _ => some ⟨7, [[1], [2]]⟩,
    mbValid := fun _ => true, hdrValid := fun _ => true }

/-- A connected session at rest with a loaded filter. -/
def restState : PeerState :=
  { initState 0 0 0 with status := .connected, sentFilter := true }

/-- A session with a merkleblock in flight. -/
def exStateC4 : PeerState :=
  { initState 0 0 0 with currentBlock := some 5, currentBlockTxHashes := [[1]] }

/-- A freshly connecting session (version not yet exchanged). -/
def exStateC7 : PeerState :=
  { initState 0 0 0 with status := .connecting, disconnectTime := some 3 }

/-- A session whose local tip is 5 while the peer advertises 100. -/
def exStateC9 : PeerState := { initState 0 0 5 with lastblock := 100 }

/-- Same but with local tip 0. -/
def exStateC9c : PeerState := { initState 0 0 0 with lastblock := 100 }

/-- An inv item (4-byte little-endian type + 32-byte hash whose last byte
is the given tag). -/
def invItem (ty tag : Nat) : List Nat :=
  le32 ty ++ (List.replicate 31 0 ++ [tag])

/-- An inv payload announcing three block hashes. -/
def exInvBlockMsg : List Nat := [3] ++ invItem 2 1 ++ invItem 2 2 ++ invItem 2 3

/-- An inv payload announcing two tx hashes. -/
def exInvTxMsg1 : List Nat := [2] ++ invItem 1 9 ++ invItem 1 8

/-- An inv payload repeating the first tx hash of exInvTxMsg1. -/
def exInvTxMsg2 : List Nat := [1] ++ invItem 1 9

/-- A minimal well-formed 85-byte version payload: protocol version
70027, empty useragent, lastblock 1000000. -/
def exVersionMsg : List Nat :=
  le32 70027 ++ List.replicate 76 0 ++ [0] ++ le32 1000000

/-! ## Theorems -/

/-! ### C4: non-tx messages with a merkleblock in flight -/

/-- C4: for every incoming message whose command is not tx dispatched
while current_block is not none, the dispatcher clears the in-flight
block and its pending hash list and returns failure (tearing the
connection down), and the message's own acceptor is not invoked — the
state change is exactly the clearing, no acceptor event is emitted. -/
theorem claim_C4 (ps : Parsers) (st : PeerState) (t : MsgType) (msg : List Nat) (b : Nat)
    (hb : st.currentBlock = some b) (ht : t ≠ MsgType.tx) :
    PeerAcceptMessage ps st t msg =
      ({ st with currentBlock := none, currentBlockTxHashes := [] }, false, []) := by
  unfold PeerAcceptMessage
  rw [if_pos ⟨by simp [hb], ht⟩]

/-- Witness for C4 at a concrete in-flight state and an inv command. -/
theorem claim_C4_witness :
    (exStateC4.currentBlock = some 5 ∧ MsgType.inv ≠ MsgType.tx) ∧
    PeerAcceptMessage trivParsers exStateC4 MsgType.inv [] =
      ({ exStateC4 with currentBlock := none, currentBlockTxHashes := [] }, false, []) :=
  ⟨⟨by decide, by decide⟩,
   claim_C4 trivParsers exStateC4 MsgType.inv [] 5 (by decide) (by decide)⟩

/-! ### C10: stale headers batches are a failure, not a silent drop -/

/-- C10: a headers message whose header count is below 2000 and whose
scanned last-header timestamp is zero or more than 7 days plus the
maximum time drift older than earliest_key_time makes the acceptor return
failure (so the connection is torn down); no header is relayed upward and
no follow-up getheaders or getblocks is sent. -/
theorem claim_C10 (isValid : List Nat → Bool) (ekt : Nat) (msg : List Nat) (count off : Nat)
    (hv : bVarInt msg = (count, off)) (hcount : count < 2000)
    (hts : (headersScanFrom msg msg.length count off).timestamp = 0 ∨
      (headersScanFrom msg msg.length count off).timestamp + 604800 +
        BLOCK_MAX_TIME_DRIFT < ekt) :
    (PeerAcceptHeadersMessage isValid ekt msg).r = false ∧
    (PeerAcceptHeadersMessage isValid ekt msg).sent = [] ∧
    (PeerAcceptHeadersMessage isValid ekt msg).relayed = [] := by
  simp only [PeerAcceptHeadersMessage, hv]
  by_cases hg : off = 0 ∨ msg.length < off + 81 * count
  · simp [hg]
  · have hbig : ¬(2000 ≤ count ∨
        (0 < (headersScanFrom msg msg.length count off).timestamp ∧
          ekt ≤ (headersScanFrom msg msg.length count off).timestamp + 604800 +
            BLOCK_MAX_TIME_DRIFT)) := by
      rintro (h | ⟨hpos, hle⟩)
      · omega
      · rcases hts with h0 | hlt
        · omega
        · omega
    simp [hg, hbig]

/-- Witness for C10: a one-header batch whose timestamp (10) is ancient
relative to an earliest key time of 10^9. -/
theorem claim_C10_witness :
    (bVarInt exMsgC10 = (1, 1) ∧ (1 : Nat) < 2000 ∧
      ((headersScanFrom exMsgC10 exMsgC10.length 1 1).timestamp = 0 ∨
        (headersScanFrom exMsgC10 exMsgC10.length 1 1).timestamp + 604800 +
          BLOCK_MAX_TIME_DRIFT < 1000000000)) ∧
    (PeerAcceptHeadersMessage allValid 1000000000 exMsgC10).r = false ∧
    (PeerAcceptHeadersMessage allValid 1000000000 exMsgC10).sent = [] ∧
    (PeerAcceptHeadersMessage allValid 1000000000 exMsgC10).relayed = [] :=
  ⟨⟨by decide, by decide, by decide⟩,
   claim_C10 allValid 1000000000 exMsgC10 1 1 (by decide) (by decide) (by decide)⟩

/-! ### C6: known-tx list and set stay in sync -/

/-- Invariant of _PeerAddKnownTxHashes on its raw containers: identical
membership is preserved, the list stays duplicate-free, and the list only
grows by appending. -/
theorem addKnownTxHashesFn_inv :
    ∀ (l lst set : List (List Nat)),
      (∀ x, x ∈ lst ↔ x ∈ set) → lst.Nodup →
      (∀ x, x ∈ (addKnownTxHashesFn (lst, set) l).1 ↔
        x ∈ (addKnownTxHashesFn (lst, set) l).2) ∧
      (addKnownTxHashesFn (lst, set) l).1.Nodup ∧
      ∃ t2, (addKnownTxHashesFn (lst, set) l).1 = lst ++ t2 := by
  intro l
  induction l with
  | nil => exact fun lst set hmem hnd => ⟨hmem, hnd, [], by simp [addKnownTxHashesFn]⟩
  | cons h rest ih =>
    intro lst set hmem hnd
    by_cases hin : h ∈ set
    · simpa [addKnownTxHashesFn, hin] using ih lst set hmem hnd
    · have hmem2 : ∀ x, x ∈ lst ++ [h] ↔ x ∈ h :: set := by
        intro x
        simp only [List.mem_append, List.mem_singleton, List.mem_cons, hmem x]
        tauto
      have hnd2 : (lst ++ [h]).Nodup := by
        refine List.Nodup.append hnd (List.nodup_singleton h) ?_
        intro a ha hb
        simp only [List.mem_singleton] at hb
        subst hb
        exact hin ((hmem a).1 ha)
      obtain ⟨hm, hn, t2, ht⟩ := ih (lst ++ [h]) (h :: set) hmem2 hnd2
      refine ⟨?_, ?_, ?_⟩
      · simpa [addKnownTxHashesFn, hin] using hm
      · simpa [addKnownTxHashesFn, hin] using hn
      · refine ⟨[h] ++ t2, ?_⟩
        simp [addKnownTxHashesFn, hin, ht, List.append_assoc]

/-- The same invariant lifted to the session state and iterated. -/
theorem foldl_addKnown_inv (ops : List (List (List Nat))) :
    ∀ st : PeerState,
      (∀ x, x ∈ st.knownTxHashes ↔ x ∈ st.knownTxHashSet) → st.knownTxHashes.Nodup →
      (∀ x, x ∈ (ops.foldl PeerAddKnownTxHashes st).knownTxHashes ↔
        x ∈ (ops.foldl PeerAddKnownTxHashes st).knownTxHashSet) ∧
      (ops.foldl PeerAddKnownTxHashes st).knownTxHashes.Nodup := by
  induction ops with
  | nil => exact fun st h1 h2 => ⟨h1, h2⟩
  | cons l rest ih =>
    intro st h1 h2
    obtain ⟨hm, hn, _⟩ := addKnownTxHashesFn_inv l st.knownTxHashes st.knownTxHashSet h1 h2
    simpa [List.foldl_cons, PeerAddKnownTxHashes] using
      ih { st with
            knownTxHashes := (addKnownTxHashesFn (st.knownTxHashes, st.knownTxHashSet) l).1
            knownTxHashSet := (addKnownTxHashesFn (st.knownTxHashes, st.knownTxHashSet) l).2 }
        hm hn

/-- C6: after any sequence of add-known-tx-hash operations (the routine
the inv acceptor, send_inv and send_mempool all call) starting from a
fresh session, the known_tx_hashes sequence and the knownTxHashSet set
have identical membership, each hash was appended at most once (the
sequence is duplicate-free), and insertion order is preserved: any further
operation only appends. -/
theorem claim_C6 (nonce ekt tip : Nat) (ops : List (List (List Nat))) :
    (∀ h, h ∈ (ops.foldl PeerAddKnownTxHashes (initState nonce ekt tip)).knownTxHashes ↔
      h ∈ (ops.foldl PeerAddKnownTxHashes (initState nonce ekt tip)).knownTxHashSet) ∧
    (ops.foldl PeerAddKnownTxHashes (initState nonce ekt tip)).knownTxHashes.Nodup ∧
    ∀ l, ∃ t2,
      (PeerAddKnownTxHashes
        (ops.foldl PeerAddKnownTxHashes (initState nonce ekt tip)) l).knownTxHashes =
        (ops.foldl PeerAddKnownTxHashes (initState nonce ekt tip)).knownTxHashes ++ t2 := by
  obtain ⟨hm, hn⟩ := foldl_addKnown_inv ops (initState nonce ekt tip)
    (by simp [initState]) (by simp [initState])
  refine ⟨hm, hn, fun l => ?_⟩
  obtain ⟨_, _, t2, ht⟩ := addKnownTxHashesFn_inv l _ _ hm hn
  exact ⟨t2, by simpa [PeerAddKnownTxHashes] using ht⟩

/-! ### C9: tarpit detection on inv -/

/-- C9 (amended): an inv whose block-hash count is between 3 and 499
inclusive, received while the local tip height is positive, the total
item count is at most 50,000 (larger invs are dropped, not failed), the
message is well-formed, and local tip + known pending block hashes + the
inv's block count is still below the peer's advertised tip, makes the
acceptor return failure, so the connection is torn down. -/
theorem claim_C9_amended (st : PeerState) (msg : List Nat)
    (htip : 0 < st.currentBlockHeight)
    (hwf : ¬((bVarInt msg).2 = 0 ∨
      msg.length < (bVarInt msg).2 + (bVarInt msg).1 * 36))
    (hcnt : (bVarInt msg).1 ≤ 50000)
    (hb3 : 2 < (parseInvItems msg (bVarInt msg).2 (bVarInt msg).1).2.length)
    (hb499 : (parseInvItems msg (bVarInt msg).2 (bVarInt msg).1).2.length < 500)
    (hsum : st.currentBlockHeight + st.knownBlockHashes.length +
      (parseInvItems msg (bVarInt msg).2 (bVarInt msg).1).2.length < st.lastblock) :
    (PeerAcceptInvMessage st msg).2.1 = false := by
  simp only [PeerAcceptInvMessage]
  rw [if_neg hwf, if_neg (by omega : ¬ 50000 < (bVarInt msg).1)]
  by_cases g1 : 0 < (parseInvItems msg (bVarInt msg).2 (bVarInt msg).1).1.length ∧
      st.sentFilter = false ∧ st.sentMempool = false ∧ st.sentGetblocks = false
  · rw [if_pos g1]
  · rw [if_neg g1]
    by_cases g2 : 10000 < (parseInvItems msg (bVarInt msg).2 (bVarInt msg).1).1.length
    · rw [if_pos g2]
    · rw [if_neg g2, if_pos ⟨htip, hb3, hb499, hsum⟩]

/-- Counterexample to C9 as stated: the same tarpit-shaped inv (3 block
hashes, advertised tip far ahead) accepted while the local tip height is
0 succeeds instead of failing — the code's tarpit check additionally
requires a positive local tip. -/
theorem claim_C9_counterexample :
    (2 < (parseInvItems exInvBlockMsg 1 3).2.length ∧
      (parseInvItems exInvBlockMsg 1 3).2.length < 500 ∧
      exStateC9c.currentBlockHeight + exStateC9c.knownBlockHashes.length +
        (parseInvItems exInvBlockMsg 1 3).2.length < exStateC9c.lastblock) ∧
    (PeerAcceptInvMessage exStateC9c exInvBlockMsg).2.1 = true := by
  decide

/-- Witness for the amended C9 at local tip 5, advertised tip 100, three
announced block hashes. -/
theorem claim_C9_witness :
    (0 < exStateC9.currentBlockHeight ∧
      2 < (parseInvItems exInvBlockMsg 1 3).2.length ∧
      (parseInvItems exInvBlockMsg 1 3).2.length < 500 ∧
      exStateC9.currentBlockHeight + exStateC9.knownBlockHashes.length +
        (parseInvItems exInvBlockMsg 1 3).2.length < exStateC9.lastblock) ∧
    (PeerAcceptInvMessage exStateC9 exInvBlockMsg).2.1 = false :=
  ⟨⟨by decide, by decide, by decide, by decide⟩,
   claim_C9_amended exStateC9 exInvBlockMsg (by decide) (by decide) (by decide)
     (by decide) (by decide) (by decide)⟩

/-! ### C7: handshake status/flags invariant -/

/-- No single accepted message can make status Connected without both
verack flags being true: the only transition to Connected is
_PeerDidConnect, which requires them. -/
theorem acceptMessage_status_flags (ps : Parsers) (st : PeerState) (t : MsgType)
    (m : List Nat)
    (h : st.status = BRPeerStatus.connected → st.sentVerack = true ∧ st.gotVerack = true) :
    (PeerAcceptMessage ps st t m).1.status = BRPeerStatus.connected →
      (PeerAcceptMessage ps st t m).1.sentVerack = true ∧
      (PeerAcceptMessage ps st t m).1.gotVerack = true := by
  unfold PeerAcceptMessage
  split
  · exact fun hc => h hc
  · cases t with
    | version =>
      unfold PeerAcceptVersionMessage
      dsimp only
      split_ifs <;> intro hc
      · exact h hc
      · exact h hc
      · exact h hc
      · exact ⟨rfl, (h hc).2⟩
    | verack =>
      unfold PeerAcceptVerackMessage PeerDidConnect
      dsimp only
      split_ifs with h1 h2
      · exact fun hc => h hc
      · exact fun _ => ⟨h2.2.1, rfl⟩
      · exact fun hc => ⟨(h hc).1, rfl⟩
    | inv =>
      dsimp only
      unfold PeerAcceptInvMessage
      dsimp only
      split
      · exact fun hc => h hc
      · split
        · exact fun hc => h hc
        · split
          · exact fun hc => h hc
          · split
            · exact fun hc => h hc
            · split
              · exact fun hc => h hc
              · exact fun hc => h hc
    | tx =>
      dsimp only
      unfold PeerAcceptTxMessage
      rcases ps.parseTx m with _ | hh
      · exact fun hc => h hc
      · dsimp only
        split
        · exact fun hc => h hc
        · split
          · exact fun hc => h hc
          · split <;> exact fun hc => h hc
    | headers => exact fun hc => h hc
    | getaddr => exact fun hc => h hc
    | ping =>
      unfold PeerAcceptPingMessage
      dsimp only
      split_ifs <;> exact fun hc => h hc
    | pong =>
      unfold PeerAcceptPongMessage
      dsimp only
      split_ifs <;> first
        | exact fun hc => h hc
        | (rcases st.pongQueue with _ | ⟨cb, rest⟩ <;> exact fun hc => h hc)
    | merkleblock =>
      unfold PeerAcceptMerkleblockMessage
      dsimp only
      rcases ps.parseMerkle m with _ | mb
      · exact fun hc => h hc
      · dsimp only
        split_ifs <;> exact fun hc => h hc
    | other => exact fun hc => h hc
    | unknown => exact fun hc => h hc

/-- The status/flags invariant holds across any accepted message
sequence. -/
theorem runMsgs_status_flags (ps : Parsers) (msgs : List (MsgType × List Nat)) :
    ∀ st : PeerState,
      (st.status = BRPeerStatus.connected → st.sentVerack = true ∧ st.gotVerack = true) →
      ((runMsgs ps st msgs).1.status = BRPeerStatus.connected →
        (runMsgs ps st msgs).1.sentVerack = true ∧
        (runMsgs ps st msgs).1.gotVerack = true) := by
  induction msgs with
  | nil => exact fun st h => h
  | cons p rest ih =>
    obtain ⟨t, m⟩ := p
    intro st h
    simp only [runMsgs]
    split
    · exact ih _ (acceptMessage_status_flags ps st t m h)
    · exact acceptMessage_status_flags ps st t m h

/-- C7 (amended): status = Connected implies sent_verack and got_verack
after any accepted message sequence; and for a handshake in which a valid
version is accepted and then a verack (the protocol ordering), the
transition to Connected happens at the verack — the second condition to
become true with sent_verack already set — at which moment the disconnect
deadline is cleared and the connected callback is invoked exactly once.
(The converse direction of the claim's iff fails when a verack is
accepted before the version: only the verack acceptor runs
_PeerDidConnect.) -/
theorem claim_C7_amended (ps : Parsers) (st0 : PeerState) (vmsg vkmsg : List Nat)
    (hst : st0.status = BRPeerStatus.connecting) (hsv : st0.sentVerack = false)
    (hgv : st0.gotVerack = false) (hcb : st0.currentBlock = none)
    (hlen : 85 ≤ vmsg.length)
    (hua : 80 + (bVarInt (vmsg.drop 80)).2 + (bVarInt (vmsg.drop 80)).1 + 4 ≤ vmsg.length)
    (hver : 70026 ≤ uint32GetLE vmsg 0) :
    (∀ (st : PeerState) (msgs : List (MsgType × List Nat)),
      (st.status = BRPeerStatus.connected → st.sentVerack = true ∧ st.gotVerack = true) →
      ((runMsgs ps st msgs).1.status = BRPeerStatus.connected →
        (runMsgs ps st msgs).1.sentVerack = true ∧
        (runMsgs ps st msgs).1.gotVerack = true)) ∧
    (runMsgs ps st0 [(MsgType.version, vmsg), (MsgType.verack, vkmsg)]).1.status =
      BRPeerStatus.connected ∧
    (runMsgs ps st0 [(MsgType.version, vmsg), (MsgType.verack, vkmsg)]).1.sentVerack = true ∧
    (runMsgs ps st0 [(MsgType.version, vmsg), (MsgType.verack, vkmsg)]).1.gotVerack = true ∧
    (runMsgs ps st0 [(MsgType.version, vmsg), (MsgType.verack, vkmsg)]).1.disconnectTime
      = none ∧
    (runMsgs ps st0
        [(MsgType.version, vmsg), (MsgType.verack, vkmsg)]).2.2.count PEvent.connectedEvt
      = 1 ∧
    (runMsgs ps st0 [(MsgType.version, vmsg), (MsgType.verack, vkmsg)]).2.1 = true := by
  refine ⟨fun st msgs h => runMsgs_status_flags ps msgs st h, ?_⟩
  have hv : PeerAcceptMessage ps st0 MsgType.version vmsg =
      ({ st0 with
          version := uint32GetLE vmsg 0
          useragent := slice vmsg (80 + (bVarInt (vmsg.drop 80)).2) (bVarInt (vmsg.drop 80)).1
          lastblock := uint32GetLE vmsg
            (80 + (bVarInt (vmsg.drop 80)).2 + (bVarInt (vmsg.drop 80)).1)
          sentVerack := true },
       true, [PEvent.sentVerackMsg]) := by
    unfold PeerAcceptMessage
    rw [if_neg (by simp [hcb])]
    unfold PeerAcceptVersionMessage
    rw [if_neg (by omega), if_neg (by omega), if_neg (by omega)]
  have hk : ∀ st1 : PeerState, st1.status = BRPeerStatus.connecting →
      st1.sentVerack = true → st1.gotVerack = false → st1.currentBlock = none →
      PeerAcceptMessage ps st1 MsgType.verack vkmsg =
        ({ st1 with
            gotVerack := true
            status := BRPeerStatus.connected
            disconnectTime := none }, true, [PEvent.connectedEvt]) := by
    intro st1 h1 h2 h3 h4
    unfold PeerAcceptMessage
    rw [if_neg (by simp [h4])]
    unfold PeerAcceptVerackMessage
    rw [if_neg (by simp [h3])]
    unfold PeerDidConnect
    rw [if_pos ⟨by simpa using h1, by simpa using h2, rfl⟩]
  have hk2 := hk { st0 with
      version := uint32GetLE vmsg 0
      useragent := slice vmsg (80 + (bVarInt (vmsg.drop 80)).2) (bVarInt (vmsg.drop 80)).1
      lastblock := uint32GetLE vmsg
        (80 + (bVarInt (vmsg.drop 80)).2 + (bVarInt (vmsg.drop 80)).1)
      sentVerack := true } hst rfl hgv hcb
  simp [runMsgs, hv, hk2, List.count_cons]

/-- Counterexample to C7 as stated: a verack accepted before the version
leaves both sent_verack and got_verack true with the session still
Connecting — the transition is checked only in the verack acceptor, so
status = Connected iff both flags fails for this run. -/
theorem claim_C7_counterexample :
    (runMsgs trivParsers exStateC7
       [(MsgType.verack, []), (MsgType.version, exVersionMsg)]).1.sentVerack = true ∧
    (runMsgs trivParsers exStateC7
       [(MsgType.verack, []), (MsgType.version, exVersionMsg)]).1.gotVerack = true ∧
    (runMsgs trivParsers exStateC7
       [(MsgType.verack, []), (MsgType.version, exVersionMsg)]).1.status ≠
      BRPeerStatus.connected := by
  decide

/-- Witness for the amended C7: the canonical version-then-verack
handshake from a connecting session. -/
theorem claim_C7_witness :
    (exStateC7.status = BRPeerStatus.connecting ∧ exStateC7.sentVerack = false ∧
      exStateC7.gotVerack = false ∧ exStateC7.currentBlock = none ∧
      85 ≤ exVersionMsg.length ∧
      80 + (bVarInt (exVersionMsg.drop 80)).2 + (bVarInt (exVersionMsg.drop 80)).1 + 4 ≤
        exVersionMsg.length ∧
      70026 ≤ uint32GetLE exVersionMsg 0) ∧
    (runMsgs trivParsers exStateC7
       [(MsgType.version, exVersionMsg), (MsgType.verack, [])]).1.status =
      BRPeerStatus.connected ∧
    (runMsgs trivParsers exStateC7
       [(MsgType.version, exVersionMsg), (MsgType.verack, [])]).1.disconnectTime = none ∧
    (runMsgs trivParsers exStateC7
       [(MsgType.version, exVersionMsg),
        (MsgType.verack, [])]).2.2.count PEvent.connectedEvt = 1 := by
  have := claim_C7_amended trivParsers exStateC7 exVersionMsg [] (by decide) (by decide)
    (by decide) (by decide) (by decide) (by decide) (by decide)
  exact ⟨⟨by decide, by decide, by decide, by decide, by decide, by decide, by decide⟩,
    this.2.1, this.2.2.2.2.1, this.2.2.2.2.2.1⟩

/-! ### C8: pong FIFO order and failure drain -/

/-- Draining a queue of registered callbacks invokes each exactly once. -/
theorem filterMap_mapOption (f : Nat → PEvent) (l : List Nat) :
    (l.map some).filterMap (fun cb => Option.map f cb) = l.map f := by
  induction l with
  | nil => rfl
  | cons a tl ih => simp [ih]

/-- BRPeerSendPing only appends to the pong queue. -/
theorem foldPing_fields (ids : List Nat) :
    ∀ st0 : PeerState,
      (ids.foldl (fun s c => (BRPeerSendPing s (some c)).1) st0).pongQueue =
        st0.pongQueue ++ ids.map some ∧
      (ids.foldl (fun s c => (BRPeerSendPing s (some c)).1) st0).nonce = st0.nonce ∧
      (ids.foldl (fun s c => (BRPeerSendPing s (some c)).1) st0).mempoolCallback =
        st0.mempoolCallback := by
  induction ids with
  | nil => intro st0; simp
  | cons a tl ih =>
    intro st0
    obtain ⟨h1, h2, h3⟩ := ih { st0 with pongQueue := st0.pongQueue ++ [some a] }
    refine ⟨?_, ?_, ?_⟩ <;>
      simp_all [BRPeerSendPing, List.foldl_cons]

/-- Valid pongs pop and invoke the queued callbacks head-first: after m
valid pongs against a queue holding the callbacks of ids (in submission
order), the success events are exactly the first m callbacks in order and
the queue holds the rest. -/
theorem processPongs_spec (pmsg : List Nat) :
    ∀ (m : Nat) (ids : List Nat) (st : PeerState),
      st.pongQueue = ids.map some → m ≤ ids.length →
      8 ≤ pmsg.length → uint64GetLE pmsg 0 = st.nonce →
      (processPongs pmsg m st).2 = (ids.take m).map (fun c => PEvent.pongCb c true) ∧
      (processPongs pmsg m st).1.pongQueue = (ids.drop m).map some ∧
      (processPongs pmsg m st).1.nonce = st.nonce ∧
      (processPongs pmsg m st).1.mempoolCallback = st.mempoolCallback := by
  intro m
  induction m with
  | zero =>
    intro ids st hq _ _ _
    simp [processPongs, hq]
  | succ m ih =>
    intro ids st hq hm hl hn
    cases ids with
    | nil => simp at hm
    | cons a tl =>
      have hstep : PeerAcceptPongMessage st pmsg =
          ({ st with pongQueue := tl.map some }, true, [PEvent.pongCb a true]) := by
        unfold PeerAcceptPongMessage
        rw [if_neg (by omega), if_neg (by simp [hn])]
        rw [hq]
        rfl
      obtain ⟨e1, e2, e3, e4⟩ := ih tl { st with pongQueue := tl.map some } rfl
        (by simpa using hm) hl (by simpa using hn)
      simp [processPongs, hstep, e1, e2, e3, e4]

/-- C8: pong callbacks registered by send_ping fire in FIFO order of
their ping submissions — each valid pong (payload at least 8 bytes, nonce
equal to the session nonce, at least one outstanding callback) pops and
invokes exactly the head of the pong queue with success — and when the
receive task terminates, every remaining queued callback is invoked
exactly once with failure, in order, before disconnected(error) is
surfaced. -/
theorem claim_C8 (st0 : PeerState) (ids : List Nat) (m : Nat) (pmsg : List Nat) (err : Nat)
    (hq : st0.pongQueue = []) (hm : m ≤ ids.length) (hl : 8 ≤ pmsg.length)
    (hn : uint64GetLE pmsg 0 = st0.nonce) (hmp : st0.mempoolCallback = none) :
    (processPongs pmsg m
        (ids.foldl (fun s c => (BRPeerSendPing s (some c)).1) st0)).2 =
      (ids.take m).map (fun c => PEvent.pongCb c true) ∧
    (processPongs pmsg m
        (ids.foldl (fun s c => (BRPeerSendPing s (some c)).1) st0)).1.pongQueue =
      (ids.drop m).map some ∧
    peerThreadFinish
        (processPongs pmsg m
          (ids.foldl (fun s c => (BRPeerSendPing s (some c)).1) st0)).1 err =
      (ids.drop m).map (fun c => PEvent.pongCb c false) ++ [PEvent.disconnectedE err] := by
  obtain ⟨q1, q2, q3⟩ := foldPing_fields ids st0
  obtain ⟨e1, e2, _, e4⟩ := processPongs_spec pmsg m ids
    (ids.foldl (fun s c => (BRPeerSendPing s (some c)).1) st0)
    (by rw [q1, hq]; simp) hm hl (by rw [q2, hn])
  refine ⟨e1, e2, ?_⟩
  unfold peerThreadFinish
  rw [e2, e4, q3, hmp]
  simp [filterMap_mapOption, ← List.map_drop]

/-- Witness for C8: two pings, one valid pong, then termination. -/
theorem claim_C8_witness :
    ((initState 42 0 0).pongQueue = [] ∧ (1 : Nat) ≤ [3, 4].length ∧
      8 ≤ (le64 42).length ∧ uint64GetLE (le64 42) 0 = (initState 42 0 0).nonce ∧
      (initState 42 0 0).mempoolCallback = none) ∧
    (processPongs (le64 42) 1
        ([3, 4].foldl (fun s c => (BRPeerSendPing s (some c)).1) (initState 42 0 0))).2 =
      [PEvent.pongCb 3 true] ∧
    peerThreadFinish
        (processPongs (le64 42) 1
          ([3, 4].foldl (fun s c => (BRPeerSendPing s (some c)).1) (initState 42 0 0))).1
        54 =
      [PEvent.pongCb 4 false, PEvent.disconnectedE 54] := by
  have := claim_C8 (initState 42 0 0) [3, 4] 1 (le64 42) 54 (by decide) (by decide)
    (by decide) (by decide) (by decide)
  exact ⟨⟨by decide, by decide, by decide, by decide, by decide⟩,
    by simpa using this.1, by simpa using this.2.2⟩

/-! ### C5: inv deduplication against known_tx_hashes -/

/-- Membership in the set after _PeerAddKnownTxHashes: everything already
in the set and everything just added is a member. -/
theorem addKnown_mem_set (l : List (List Nat)) :
    ∀ (lst set : List (List Nat)) (x : List Nat),
      (x ∈ set ∨ x ∈ l) → x ∈ (addKnownTxHashesFn (lst, set) l).2 := by
  induction l with
  | nil =>
    intro lst set x h
    rcases h with h | h
    · exact h
    · simp at h
  | cons a tl ih =>
    intro lst set x h
    by_cases hin : a ∈ set
    · simp only [addKnownTxHashesFn, if_pos hin]
      refine ih lst set x ?_
      rcases h with h | h
      · exact Or.inl h
      · rcases List.mem_cons.mp h with rfl | h
        · exact Or.inl hin
        · exact Or.inr h
    · simp only [addKnownTxHashesFn, if_neg hin]
      refine ih (lst ++ [a]) (a :: set) x ?_
      rcases h with h | h
      · exact Or.inl (List.mem_cons_of_mem a h)
      · rcases List.mem_cons.mp h with rfl | h
        · exact Or.inl (List.mem_cons_self _ _)
        · exact Or.inr h

/-- Filtering keeps everything when the predicate holds everywhere. -/
theorem filter_all_true (p : List Nat → Bool) (l : List (List Nat))
    (h : ∀ a ∈ l, p a = true) : l.filter p = l := by
  induction l with
  | nil => rfl
  | cons a tl ih =>
    simp [List.filter_cons, h a (List.mem_cons_self a tl),
      ih fun b hb => h b (List.mem_cons_of_mem a hb)]

/-- Filtering drops everything when the predicate fails everywhere. -/
theorem filter_all_false (p : List Nat → Bool) (l : List (List Nat))
    (h : ∀ a ∈ l, p a = false) : l.filter p = [] := by
  induction l with
  | nil => rfl
  | cons a tl ih =>
    simp [List.filter_cons, h a (List.mem_cons_self a tl),
      ih fun b hb => h b (List.mem_cons_of_mem a hb)]

/-- has_tx extraction of a has_tx run. -/
theorem hasTxHashes_map_hasTx (l : List (List Nat)) :
    hasTxHashes (l.map PEvent.hasTx) = l := by
  induction l with
  | nil => rfl
  | cons a tl ih => simp_all [hasTxHashes]

/-- has_tx extraction distributes over concatenation. -/
theorem hasTxHashes_append (a b : List PEvent) :
    hasTxHashes (a ++ b) = hasTxHashes a ++ hasTxHashes b := by
  simp [hasTxHashes]

/-- A conditional getdata event contributes no has_tx hashes. -/
theorem hasTxHashes_gd (c : Prop) [Decidable c] (t b : List (List Nat)) :
    hasTxHashes (if c then [PEvent.sentGetdata t b] else []) = [] := by
  split <;> rfl

/-- A conditional ping contributes no has_tx hashes. -/
theorem hasTxHashes_ping (c : Prop) [Decidable c] :
    hasTxHashes (if c then [PEvent.sentPing] else []) = [] := by
  split <;> rfl

/-- A conditional ping contributes no getdata entries. -/
theorem getdataTxs_ping (c : Prop) [Decidable c] :
    getdataTxs (if c then [PEvent.sentPing] else []) = [] := by
  split <;> rfl

/-- getdata extraction distributes over concatenation. -/
theorem getdataTxs_append (a b : List PEvent) :
    getdataTxs (a ++ b) = getdataTxs a ++ getdataTxs b := by
  simp [getdataTxs, List.filterMap_append]

/-- has_tx events carry no getdata entries. -/
theorem getdataTxs_map_hasTx (l : List (List Nat)) :
    getdataTxs (l.map PEvent.hasTx) = [] := by
  induction l with
  | nil => rfl
  | cons a tl ih => simp_all [getdataTxs]

/-- The tx entries of a single getdata event. -/
theorem getdataTxs_single (t b : List (List Nat)) :
    getdataTxs [PEvent.sentGetdata t b] = t := by
  simp [getdataTxs]

/-- The tx entries of a conditional getdata event. -/
theorem getdataTxs_gd (c : Prop) [Decidable c] (t b : List (List Nat)) :
    getdataTxs (if c then [PEvent.sentGetdata t b] else []) =
      if c then t else [] := by
  split
  · exact getdataTxs_single t b
  · rfl

/-- A well-guarded inv lands in the main branch: the guards pass when
the message is well-formed, carries at most 50,000 items, at most 10,000
of them tx, no block items, and a filter has been loaded. -/
theorem invAccept_mainpath (st : PeerState) (msg : List Nat)
    (hwf : ¬((bVarInt msg).2 = 0 ∨ msg.length < (bVarInt msg).2 + (bVarInt msg).1 * 36))
    (hcnt : (bVarInt msg).1 ≤ 50000)
    (hsf : st.sentFilter = true)
    (ht : (parseInvItems msg (bVarInt msg).2 (bVarInt msg).1).1.length ≤ 10000)
    (hbk : (parseInvItems msg (bVarInt msg).2 (bVarInt msg).1).2 = []) :
    PeerAcceptInvMessage st msg =
      invMainBranch st (parseInvItems msg (bVarInt msg).2 (bVarInt msg).1).1 [] := by
  simp only [PeerAcceptInvMessage]
  rw [if_neg hwf, if_neg (by omega : ¬ 50000 < (bVarInt msg).1),
    if_neg (by simp [hsf]), if_neg (by omega), if_neg (by rw [hbk]; simp), hbk]

/-- The events of the main branch on a tx-only inv: has_tx for the known
hashes in wire order, one getdata carrying exactly the unknown hashes
when there are any, and the mempool-completion ping when armed. -/
theorem invMainBranch_events_txonly (st : PeerState) (txs : List (List Nat)) :
    (invMainBranch st txs []).2.2 =
      (txs.filter (fun h => decide (h ∈ st.knownTxHashSet))).map PEvent.hasTx ++
      ((if 0 < (txs.filter (fun h => !decide (h ∈ st.knownTxHashSet))).length then
          [PEvent.sentGetdata (txs.filter (fun h => !decide (h ∈ st.knownTxHashSet))) []]
        else []) ++
       (if 0 < txs.length ∧ st.mempoolCallback ≠ none then [PEvent.sentPing] else [])) := by
  simp only [invMainBranch]
  simp

/-- The main branch updates the known-tx set through
_PeerAddKnownTxHashes and leaves the filter flags alone. -/
theorem invMainBranch_state_txonly (st : PeerState) (txs : List (List Nat)) :
    (invMainBranch st txs []).1.knownTxHashSet =
      (addKnownTxHashesFn (st.knownTxHashes, st.knownTxHashSet)
        (txs.filter (fun h => !decide (h ∈ st.knownTxHashSet)))).2 ∧
    (invMainBranch st txs []).1.sentFilter = st.sentFilter ∧
    (invMainBranch st txs []).2.1 = true :=
  ⟨rfl, rfl, rfl⟩

/-- C5: a processed inv emits has_tx upward for exactly the tx hashes
already in known_tx_hashes (in wire order) and requests via getdata
exactly the ones that are not; consequently, a second inv whose tx hashes
all occurred in a first inv emits has_tx for every one of them and issues
zero getdata entries for them. -/
theorem claim_C5 (st : PeerState) (msg1 msg2 : List Nat)
    (hsf : st.sentFilter = true)
    (hwf1 : ¬((bVarInt msg1).2 = 0 ∨
      msg1.length < (bVarInt msg1).2 + (bVarInt msg1).1 * 36))
    (hcnt1 : (bVarInt msg1).1 ≤ 50000)
    (ht1 : (parseInvItems msg1 (bVarInt msg1).2 (bVarInt msg1).1).1.length ≤ 10000)
    (hbk1 : (parseInvItems msg1 (bVarInt msg1).2 (bVarInt msg1).1).2 = [])
    (hwf2 : ¬((bVarInt msg2).2 = 0 ∨
      msg2.length < (bVarInt msg2).2 + (bVarInt msg2).1 * 36))
    (hcnt2 : (bVarInt msg2).1 ≤ 50000)
    (ht2 : (parseInvItems msg2 (bVarInt msg2).2 (bVarInt msg2).1).1.length ≤ 10000)
    (hbk2 : (parseInvItems msg2 (bVarInt msg2).2 (bVarInt msg2).1).2 = [])
    (hsub : ∀ h ∈ (parseInvItems msg2 (bVarInt msg2).2 (bVarInt msg2).1).1,
      h ∈ (parseInvItems msg1 (bVarInt msg1).2 (bVarInt msg1).1).1) :
    (PeerAcceptInvMessage st msg1).2.1 = true ∧
    hasTxHashes (PeerAcceptInvMessage st msg1).2.2 =
      (parseInvItems msg1 (bVarInt msg1).2 (bVarInt msg1).1).1.filter
        (fun h => decide (h ∈ st.knownTxHashSet)) ∧
    getdataTxs (PeerAcceptInvMessage st msg1).2.2 =
      (parseInvItems msg1 (bVarInt msg1).2 (bVarInt msg1).1).1.filter
        (fun h => !decide (h ∈ st.knownTxHashSet)) ∧
    (PeerAcceptInvMessage (PeerAcceptInvMessage st msg1).1 msg2).2.1 = true ∧
    hasTxHashes (PeerAcceptInvMessage (PeerAcceptInvMessage st msg1).1 msg2).2.2 =
      (parseInvItems msg2 (bVarInt msg2).2 (bVarInt msg2).1).1 ∧
    getdataTxs (PeerAcceptInvMessage (PeerAcceptInvMessage st msg1).1 msg2).2.2 = [] := by
  have hm1 := invAccept_mainpath st msg1 hwf1 hcnt1 hsf ht1 hbk1
  obtain ⟨hset1, hsf1, hr1⟩ := invMainBranch_state_txonly st
    (parseInvItems msg1 (bVarInt msg1).2 (bVarInt msg1).1).1
  have hm2 := invAccept_mainpath (PeerAcceptInvMessage st msg1).1 msg2 hwf2 hcnt2
    (by rw [hm1]; rw [hsf1, hsf]) ht2 hbk2
  have hmem2 : ∀ h ∈ (parseInvItems msg2 (bVarInt msg2).2 (bVarInt msg2).1).1,
      h ∈ (PeerAcceptInvMessage st msg1).1.knownTxHashSet := by
    intro h hh
    rw [hm1, hset1]
    by_cases hk : h ∈ st.knownTxHashSet
    · exact addKnown_mem_set _ _ _ _ (Or.inl hk)
    · refine addKnown_mem_set _ _ _ _ (Or.inr ?_)
      exact List.mem_filter.mpr ⟨hsub h hh, by simp [hk]⟩
  refine ⟨by rw [hm1]; exact hr1, ?_, ?_, by rw [hm2]; rfl, ?_, ?_⟩
  · rw [hm1, invMainBranch_events_txonly, hasTxHashes_append, hasTxHashes_append,
      hasTxHashes_map_hasTx, hasTxHashes_gd, hasTxHashes_ping]
    simp
  · rw [hm1, invMainBranch_events_txonly, getdataTxs_append, getdataTxs_append,
      getdataTxs_map_hasTx, getdataTxs_gd, getdataTxs_ping]
    simp only [List.nil_append, List.append_nil]
    split
    · rfl
    · next hlen =>
      cases hfe : (parseInvItems msg1 (bVarInt msg1).2 (bVarInt msg1).1).1.filter
          (fun h => !decide (h ∈ st.knownTxHashSet)) with
      | nil => rfl
      | cons a tl => rw [hfe] at hlen; simp at hlen
  · rw [hm2, invMainBranch_events_txonly]
    rw [filter_all_true _ _ fun a ha => by simpa using hmem2 a ha]
    rw [filter_all_false (fun h =>
        !decide (h ∈ (PeerAcceptInvMessage st msg1).1.knownTxHashSet)) _
      fun a ha => by simpa using hmem2 a ha]
    rw [hasTxHashes_append, hasTxHashes_append, hasTxHashes_map_hasTx,
      hasTxHashes_gd, hasTxHashes_ping]
    simp
  · rw [hm2, invMainBranch_events_txonly]
    rw [filter_all_false (fun h =>
        !decide (h ∈ (PeerAcceptInvMessage st msg1).1.knownTxHashSet)) _
      fun a ha => by simpa using hmem2 a ha]
    rw [getdataTxs_append, getdataTxs_append, getdataTxs_map_hasTx,
      getdataTxs_gd, getdataTxs_ping]
    simp

/-- Witness for C5: two tx hashes announced, the second inv repeating one
of them; the second inv issues no getdata entries. -/
theorem claim_C5_witness :
    (restState.sentFilter = true ∧
      ¬((bVarInt exInvTxMsg1).2 = 0 ∨
        exInvTxMsg1.length < (bVarInt exInvTxMsg1).2 + (bVarInt exInvTxMsg1).1 * 36) ∧
      ¬((bVarInt exInvTxMsg2).2 = 0 ∨
        exInvTxMsg2.length < (bVarInt exInvTxMsg2).2 + (bVarInt exInvTxMsg2).1 * 36) ∧
      (∀ h ∈ (parseInvItems exInvTxMsg2 (bVarInt exInvTxMsg2).2 (bVarInt exInvTxMsg2).1).1,
        h ∈ (parseInvItems exInvTxMsg1 (bVarInt exInvTxMsg1).2 (bVarInt exInvTxMsg1).1).1)) ∧
    hasTxHashes
        (PeerAcceptInvMessage (PeerAcceptInvMessage restState exInvTxMsg1).1
          exInvTxMsg2).2.2 =
      (parseInvItems exInvTxMsg2 (bVarInt exInvTxMsg2).2 (bVarInt exInvTxMsg2).1).1 ∧
    getdataTxs
        (PeerAcceptInvMessage (PeerAcceptInvMessage restState exInvTxMsg1).1
          exInvTxMsg2).2.2 =
      [] :=
  ⟨⟨by decide, by decide, by decide, by decide⟩,
   (claim_C5 restState exInvTxMsg1 exInvTxMsg2 (by decide) (by decide) (by decide)
       (by decide) (by decide) (by decide) (by decide) (by decide) (by decide)
       (by decide)).2.2.2.2.1,
   (claim_C5 restState exInvTxMsg1 exInvTxMsg2 (by decide) (by decide) (by decide)
       (by decide) (by decide) (by decide) (by decide) (by decide) (by decide)
       (by decide)).2.2.2.2.2⟩

/-! ### C3: merkleblock assembly from interleaved tx messages -/

/-- Removing a member h of l leaves, up to permutation, l minus one
occurrence of h. -/
theorem eraseFirst_perm (h : List Nat) :
    ∀ l : List (List Nat), h ∈ l → l.Perm (h :: eraseFirst l h) := by
  intro l
  induction l with
  | nil => intro hm; cases hm
  | cons a tl ih =>
    intro hm
    by_cases he : a = h
    · subst he
      simp [eraseFirst]
    · have hm2 : h ∈ tl := by
        rcases List.mem_cons.mp hm with h1 | h1
        · exact absurd h1.symm he
        · exact h1
      simp only [eraseFirst, if_neg he]
      exact ((ih hm2).cons a).trans (List.Perm.swap h a (eraseFirst tl h))

/-- Removing an arriving hash from the pending list (last occurrence,
as the C tail-first loop does) is, up to permutation, multiset removal. -/
theorem eraseFromTail_perm (p : List (List Nat)) (h : List Nat) (rest : List (List Nat))
    (hp : p.Perm (h :: rest)) : (eraseFromTail p h).Perm rest := by
  unfold eraseFromTail
  have hm : h ∈ p.reverse := by
    have : h ∈ p := hp.symm.subset (List.mem_cons_self _ _)
    simpa using this
  have e1 : (h :: eraseFirst p.reverse h).Perm (h :: rest) :=
    ((eraseFirst_perm h p.reverse hm).symm.trans (List.reverse_perm p)).trans hp
  exact (List.reverse_perm _).trans e1.cons_inv

/-- One tx message while a merkleblock is in flight: the dispatcher routes
it to the tx acceptor, which relays the transaction, removes its hash from
the pending list, and completes the block exactly when the list empties. -/
theorem txStep_eq (ps : Parsers) (st : PeerState) (m : List Nat) (hh : List Nat) (bid : Nat)
    (hm : ps.parseTx m = some hh) (hb : st.currentBlock = some bid)
    (hf : st.sentFilter = true) :
    PeerAcceptMessage ps st MsgType.tx m =
      (if eraseFromTail st.currentBlockTxHashes hh = [] then
        ({ st with currentBlock := none, currentBlockTxHashes := [] }, true,
         [PEvent.relayedTx hh, PEvent.relayedBlock bid])
      else
        ({ st with currentBlockTxHashes := eraseFromTail st.currentBlockTxHashes hh },
         true, [PEvent.relayedTx hh])) := by
  unfold PeerAcceptMessage
  rw [if_neg (by simp)]
  unfold PeerAcceptTxMessage
  rw [hm]
  dsimp only
  rw [if_neg (by simp [hf]), hb]

/-- Delivering tx messages for exactly the pending hashes, in any order,
completes the in-flight block: the run succeeds, the block and its pending
list are cleared, and relayed_block fires exactly once for that block. -/
theorem txRun_spec (ps : Parsers) :
    ∀ (l msgs : List (List Nat)) (st : PeerState) (bid : Nat),
      st.currentBlock = some bid → st.sentFilter = true →
      st.currentBlockTxHashes ≠ [] → st.currentBlockTxHashes.Perm l →
      msgs.map ps.parseTx = l.map some →
      (runMsgs ps st (msgs.map (fun m => (MsgType.tx, m)))).2.1 = true ∧
      (runMsgs ps st (msgs.map (fun m => (MsgType.tx, m)))).1.currentBlock = none ∧
      (runMsgs ps st (msgs.map (fun m => (MsgType.tx, m)))).1.currentBlockTxHashes = [] ∧
      (runMsgs ps st (msgs.map (fun m => (MsgType.tx, m)))).2.2.count
        (PEvent.relayedBlock bid) = 1 := by
  intro l
  induction l with
  | nil =>
    intro msgs st bid _ _ hne hperm _
    exact absurd (List.perm_nil.mp hperm) hne
  | cons h rest ih =>
    intro msgs st bid hb hf hne hperm hmap
    cases msgs with
    | nil => simp at hmap
    | cons m ms =>
      simp only [List.map_cons, List.cons.injEq] at hmap
      obtain ⟨hm, hms⟩ := hmap
      have hstep := txStep_eq ps st m h bid hm hb hf
      have hperm2 : (eraseFromTail st.currentBlockTxHashes h).Perm rest :=
        eraseFromTail_perm _ _ _ hperm
      by_cases hemp : eraseFromTail st.currentBlockTxHashes h = []
      · have hrest : rest = [] := by
          rw [hemp] at hperm2
          exact (List.perm_nil.mp hperm2.symm)
        subst hrest
        have hms0 : ms = [] := by
          cases ms with
          | nil => rfl
          | cons a tl => simp at hms
        subst hms0
        refine ⟨?_, ?_, ?_, ?_⟩ <;>
          simp [runMsgs, hstep, hemp, List.count_cons]
      · have hne2 : eraseFromTail st.currentBlockTxHashes h ≠ [] := hemp
        have hrest : rest ≠ [] := by
          intro hr
          rw [hr] at hperm2
          exact hne2 (List.perm_nil.mp hperm2)
        obtain ⟨c1, c2, c3, c4⟩ := ih ms
          { st with currentBlockTxHashes := eraseFromTail st.currentBlockTxHashes h }
          bid (by simpa using hb) (by simpa using hf) (by simpa using hne2)
          (by simpa using hperm2) hms
        refine ⟨?_, ?_, ?_, ?_⟩ <;>
          simp [runMsgs, hstep, hemp, c1, c2, c3, c4, List.count_cons, List.count_append]

/-- The merkleblock-assembly invariant: the in-flight block exists exactly
when pending matched hashes remain. -/
def blockInv (st : PeerState) : Prop :=
  st.currentBlock = none ↔ st.currentBlockTxHashes = []

/-- Every accepted message preserves the merkleblock-assembly
invariant. -/
theorem acceptMessage_blockInv (ps : Parsers) (st : PeerState) (t : MsgType)
    (m : List Nat) (h : blockInv st) : blockInv (PeerAcceptMessage ps st t m).1 := by
  unfold PeerAcceptMessage
  split
  · exact ⟨fun _ => rfl, fun _ => rfl⟩
  · next hguard =>
    cases t with
    | version =>
      dsimp only
      unfold PeerAcceptVersionMessage
      dsimp only
      split_ifs <;> exact h
    | verack =>
      dsimp only
      unfold PeerAcceptVerackMessage PeerDidConnect
      dsimp only
      split_ifs <;> exact h
    | inv =>
      dsimp only
      unfold PeerAcceptInvMessage
      dsimp only
      split
      · exact h
      · split
        · exact h
        · split
          · exact h
          · split
            · exact h
            · split
              · exact h
              · exact h
    | tx =>
      dsimp only
      unfold PeerAcceptTxMessage
      rcases ps.parseTx m with _ | hh
      · exact h
      · dsimp only
        split
        · exact h
        · split
          · exact h
          · next b hcbeq =>
            split
            · exact ⟨fun _ => rfl, fun _ => rfl⟩
            · next hemp => simp [blockInv, hcbeq, hemp]
    | headers => exact h
    | getaddr => exact h
    | ping =>
      dsimp only
      unfold PeerAcceptPingMessage
      split_ifs <;> exact h
    | pong =>
      dsimp only
      unfold PeerAcceptPongMessage
      split_ifs <;> first
        | exact h
        | (rcases st.pongQueue with _ | ⟨cb, rest⟩ <;> exact h)
    | merkleblock =>
      have hbn : st.currentBlock = none := by
        by_contra hne
        exact hguard ⟨hne, by simp⟩
      have hpe : st.currentBlockTxHashes = [] := h.mp hbn
      dsimp only
      unfold PeerAcceptMerkleblockMessage
      rcases ps.parseMerkle m with _ | mb
      · exact h
      · dsimp only
        split
        · exact h
        · split
          · exact h
          · split
            · exact h
            · next hpd => simp [blockInv, hpd]
    | other => exact h
    | unknown => exact h

/-- The merkleblock-assembly invariant holds across any accepted message
sequence. -/
theorem runMsgs_blockInv (ps : Parsers) (msgs : List (MsgType × List Nat)) :
    ∀ st : PeerState, blockInv st → blockInv (runMsgs ps st msgs).1 := by
  induction msgs with
  | nil => exact fun st h => h
  | cons p rest ih =>
    obtain ⟨t, m⟩ := p
    intro st h
    simp only [runMsgs]
    split
    · exact ih _ (acceptMessage_blockInv ps st t m h)
    · exact acceptMessage_blockInv ps st t m h

/-- C3: a merkleblock arriving at rest whose k ≥ 1 matched hashes are not
yet known is retained as current_block with exactly those hashes pending
(reversed, as the code stores them); after tx messages for exactly those
k hashes arrive in any order, relayed_block fires exactly once for that
block and current_block returns to none with the pending list empty.  A
merkleblock with no pending matched hashes is delivered upward
immediately.  And from any state satisfying it, every accepted message
sequence preserves current_block ≠ none → current_block_tx_hashes ≠ ∅. -/
theorem claim_C3 (ps : Parsers) (st0 : PeerState) (mmsg : List Nat) (mb : MBlock)
    (txmsgs l : List (List Nat))
    (h0 : st0.currentBlock = none) (h1 : st0.currentBlockTxHashes = [])
    (h2 : st0.sentFilter = true)
    (h3 : ps.parseMerkle mmsg = some mb) (h4 : ps.mbValid mb = true)
    (h5 : mb.matched.filter (fun h => !decide (h ∈ st0.knownTxHashSet)) ≠ [])
    (h6 : l.Perm (mb.matched.filter (fun h => !decide (h ∈ st0.knownTxHashSet))))
    (h7 : txmsgs.map ps.parseTx = l.map some) :
    ((PeerAcceptMessage ps st0 MsgType.merkleblock mmsg).1.currentBlock = some mb.id ∧
     (PeerAcceptMessage ps st0 MsgType.merkleblock mmsg).1.currentBlockTxHashes =
       (mb.matched.filter (fun h => !decide (h ∈ st0.knownTxHashSet))).reverse ∧
     (runMsgs ps st0 ((MsgType.merkleblock, mmsg) ::
        txmsgs.map (fun m => (MsgType.tx, m)))).2.1 = true ∧
     (runMsgs ps st0 ((MsgType.merkleblock, mmsg) ::
        txmsgs.map (fun m => (MsgType.tx, m)))).1.currentBlock = none ∧
     (runMsgs ps st0 ((MsgType.merkleblock, mmsg) ::
        txmsgs.map (fun m => (MsgType.tx, m)))).1.currentBlockTxHashes = [] ∧
     (runMsgs ps st0 ((MsgType.merkleblock, mmsg) ::
        txmsgs.map (fun m => (MsgType.tx, m)))).2.2.count
       (PEvent.relayedBlock mb.id) = 1) ∧
    (∀ (mmsg2 : List Nat) (mb2 : MBlock), ps.parseMerkle mmsg2 = some mb2 →
      ps.mbValid mb2 = true →
      mb2.matched.filter (fun h => !decide (h ∈ st0.knownTxHashSet)) = [] →
      PeerAcceptMessage ps st0 MsgType.merkleblock mmsg2 =
        (st0, true, [PEvent.relayedBlock mb2.id])) ∧
    (∀ (st : PeerState), (st.currentBlock = none ↔ st.currentBlockTxHashes = []) →
      ∀ msgs : List (MsgType × List Nat),
        (runMsgs ps st msgs).1.currentBlock ≠ none →
        (runMsgs ps st msgs).1.currentBlockTxHashes ≠ []) := by
  have hmb : PeerAcceptMessage ps st0 MsgType.merkleblock mmsg =
      ({ st0 with
          currentBlock := some mb.id
          currentBlockTxHashes :=
            (mb.matched.filter (fun h => !decide (h ∈ st0.knownTxHashSet))).reverse },
       true, []) := by
    unfold PeerAcceptMessage
    rw [if_neg (by simp [h0])]
    unfold PeerAcceptMerkleblockMessage
    rw [h3]
    dsimp only
    rw [if_neg (by simp [h4]), if_neg (by simp [h2]), h1]
    rw [if_neg (by simpa using h5)]
    simp
  have htx := txRun_spec ps l txmsgs
    { st0 with
        currentBlock := some mb.id
        currentBlockTxHashes :=
          (mb.matched.filter (fun h => !decide (h ∈ st0.knownTxHashSet))).reverse }
    mb.id (by simp) (by simpa using h2)
    (by
      simp only
      intro he
      exact h5 (by simpa using congrArg List.reverse he))
    (by
      simp only
      exact (List.reverse_perm _).trans h6.symm)
    h7
  obtain ⟨c1, c2, c3, c4⟩ := htx
  refine ⟨⟨?_, ?_, ?_, ?_, ?_, ?_⟩, ?_, ?_⟩
  · rw [hmb]
  · rw [hmb]
  · simpa [runMsgs, hmb] using c1
  · simpa [runMsgs, hmb] using c2
  · simpa [runMsgs, hmb] using c3
  · simpa [runMsgs, hmb] using c4
  · intro mmsg2 mb2 g3 g4 g5
    unfold PeerAcceptMessage
    rw [if_neg (by simp [h0])]
    unfold PeerAcceptMerkleblockMessage
    rw [g3]
    dsimp only
    rw [if_neg (by simp [g4]), if_neg (by simp [h2]), h1, g5]
    rw [if_pos (by simp)]
  · intro st hinv msgs hne hpe
    exact hne ((runMsgs_blockInv ps msgs st hinv).mpr hpe)

/-- Witness for C3: a merkleblock with two matched hashes completed by
the two tx messages arriving in swapped order. -/
theorem claim_C3_witness :
    (restState.currentBlock = none ∧ restState.currentBlockTxHashes = [] ∧
      restState.sentFilter = true ∧
      mbParsers.parseMerkle [0] = some ⟨7, [[1], [2]]⟩ ∧
      (MBlock.mk 7 [[1], [2]]).matched.filter
        (fun h => !decide (h ∈ restState.knownTxHashSet)) ≠ [] ∧
      ([[2], [1]] : List (List Nat)).Perm
        ((MBlock.mk 7 [[1], [2]]).matched.filter
          (fun h => !decide (h ∈ restState.knownTxHashSet))) ∧
      ([[2], [1]] : List (List Nat)).map mbParsers.parseTx =
        ([[2], [1]] : List (List Nat)).map some) ∧
    (runMsgs mbParsers restState ((MsgType.merkleblock, [0]) ::
        ([[2], [1]] : List (List Nat)).map (fun m => (MsgType.tx, m)))).1.currentBlock =
      none ∧
    (runMsgs mbParsers restState ((MsgType.merkleblock, [0]) ::
        ([[2], [1]] : List (List Nat)).map (fun m => (MsgType.tx, m)))).2.2.count
      (PEvent.relayedBlock 7) = 1 := by
  have := claim_C3 mbParsers restState [0] ⟨7, [[1], [2]]⟩ [[2], [1]] [[2], [1]]
    (by decide) (by decide) (by decide) (by decide) (by decide) (by decide)
    (by decide) (by decide)
  exact ⟨⟨by decide, by decide, by decide, by decide, by decide, by decide, by decide⟩,
    this.1.2.2.2.1, this.1.2.2.2.2.2⟩

/-! ### C1: stride selection on a straddling headers batch -/

/-- findSwitch finds the first index whose timestamp is not positive and
below the activation: when the prefix timestamps are in-range and index s
is the first stopping point, the scan starting at any j ≤ s stops at s
with s's timestamp. -/
theorem findSwitch_eq (msg : List Nat) (off count s : Nat) (hsc : s < count)
    (hpre : ∀ i, i < s → 0 < tsAt81 msg off i ∧ tsAt81 msg off i < KAWPOW_ActivationTime)
    (hstop : ¬(0 < tsAt81 msg off s ∧ tsAt81 msg off s < KAWPOW_ActivationTime)) :
    ∀ (fuel j : Nat), j ≤ s → s + 1 ≤ fuel + j →
      findSwitch msg off count fuel j (tsAt81 msg off j) = (s, tsAt81 msg off s) := by
  intro fuel
  induction fuel with
  | zero =>
    intro j hj hf
    exact absurd hf (by omega)
  | succ fuel ih =>
    intro j hj hf
    rcases Nat.eq_or_lt_of_le hj with rfl | hjs
    · simp only [findSwitch]
      rw [if_neg hstop]
    · simp only [findSwitch]
      rw [if_pos (hpre j hjs), if_pos (by omega : j + 1 < count)]
      exact ih (j + 1) (by omega) (by omega)

/-- scanTail preserves any predicate that holds of the initial timestamp
and of every 121-byte-stride read it can perform. -/
theorem scanTail_pred (msg : List Nat) (snhs count s : Nat) (P : Nat → Prop)
    (hreads : ∀ j, j + s + 1 < count → P (uint32GetLE msg (snhs + 121 * j + 68))) :
    ∀ (fuel next newCount ts : Nat), s ≤ next → newCount + s = next → P ts →
      P (scanTail msg snhs count fuel next newCount ts).2.2 := by
  intro fuel
  induction fuel with
  | zero =>
    intro next nc ts _ _ hP
    exact hP
  | succ fuel ih =>
    intro next nc ts hs hnc hP
    simp only [scanTail]
    by_cases hgt : KAWPOW_ActivationTime < ts
    · rw [if_pos hgt]
      by_cases hnext : next + 1 < count
      · rw [if_pos hnext]
        exact ih (next + 1) (nc + 1) _ (by omega) (by omega) (hreads nc (by omega))
      · rw [if_neg hnext]
        exact hP
    · rw [if_neg hgt]
      exact hP

/-- walkLast preserves any predicate that holds of the initial timestamp
and of every value walkRead can produce. -/
theorem walkLast_pred (msg : List Nat) (off snh snhs count ekt : Nat) (P : Nat → Prop)
    (hreads : ∀ last, P (walkRead msg off snh snhs count last)) :
    ∀ (fuel last ts : Nat), P ts →
      P (walkLast msg off snh snhs count ekt fuel last ts).2 := by
  intro fuel
  induction fuel with
  | zero =>
    intro last ts hP
    exact hP
  | succ fuel ih =>
    intro last ts hP
    simp only [walkLast]
    split
    · exact ih (last + 1) _ (hreads last)
    · exact hP

/-- With every header validating, the relay loop succeeds and relays the
denoted byte range of every header from index i on, in wire order. -/
theorem relayLoop_all (isValid : List Nat → Bool) (msg : List Nat) (off snh snhs count : Nat)
    (hval : ∀ i, i < count → isValid (headerSliceAt msg off snh snhs i) = true) :
    ∀ (fuel i : Nat), count ≤ fuel + i →
      relayLoop isValid msg off snh snhs count fuel i =
        (true, ((List.range count).drop i).map (headerSliceAt msg off snh snhs)) := by
  intro fuel
  induction fuel with
  | zero =>
    intro i hf
    simp only [relayLoop]
    rw [List.drop_eq_nil_of_le (by simpa using hf)]
    simp
  | succ fuel ih =>
    intro i hf
    simp only [relayLoop]
    by_cases hi : i < count
    · rw [if_pos hi, hval i hi]
      have hdrop : (List.range count).drop i = i :: (List.range count).drop (i + 1) := by
        rw [List.drop_eq_getElem_cons (by simpa using hi)]
        simp
      rw [if_pos rfl, ih (i + 1) (by omega), hdrop]
      simp
    · rw [if_neg hi, List.drop_eq_nil_of_le (by simpa using (by omega : count ≤ i))]
      simp

/-- The scan state on a straddling batch: when the prefix timestamps are
positive and pre-activation and the first post-activation header sits at
index s with at least three 121-byte records (so the detection guard
fires), the acceptor records startNewHeader = s, startNewHeaderSize =
off + 81·s, and walks the tail with the 121-byte stride. -/
theorem headersScanFrom_straddle (msg : List Nat) (count off s : Nat)
    (hs1 : 1 ≤ s) (hs2 : s + 3 ≤ count)
    (hlen : msg.length = off + 81 * s + 121 * (count - s))
    (hpre : ∀ i, i < s → 0 < tsAt81 msg off i ∧ tsAt81 msg off i < KAWPOW_ActivationTime)
    (hsufs : KAWPOW_ActivationTime ≤ tsAt81 msg off s) :
    headersScanFrom msg msg.length count off =
      { startNewHeader := s, startNewHeaderSize := off + 81 * s,
        timestampFirst := uint32GetLE msg (off + 68),
        timestampLast := (scanTail msg (off + 81 * s) count (count + 1) s 0
          (tsAt81 msg off s)).2.2,
        timestamp := (scanTail msg (off + 81 * s) count (count + 1) s 0
          (tsAt81 msg off s)).2.2 } := by
  have h0c : 0 < count := by omega
  have hdet : off + 81 * (count + 1) < msg.length := by
    rw [hlen]
    have h3 : 3 ≤ count - s := by omega
    omega
  have hfs : findSwitch msg off count (count + 1) 0 (uint32GetLE msg (off + 68)) =
      (s, tsAt81 msg off s) :=
    findSwitch_eq msg off count s (by omega) hpre
      (fun hc => absurd hc.2 (not_lt.mpr hsufs)) (count + 1) 0 (by omega) (by omega)
  simp only [headersScanFrom]
  rw [if_pos hdet, if_pos h0c, hfs]
  dsimp only
  rw [if_neg (by omega : ¬ s = count)]

/-- C1 (amended): a headers payload straddling the KAWPOW activation with
positive pre-activation timestamps, at least three 121-byte records (so
the detection guard off + 81·(count+1) < msgLen fires), an earliest key
time within 7 days + drift of the activation, and all headers valid,
records startNewHeader as the index s of the first post-activation header
and startNewHeaderSize = off + 81·s, parses headers below s as 81-byte
records at the 81-byte stride from the payload start and headers from s
on as 121-byte records at the 121-byte stride from startNewHeaderSize,
and relays each parsed header upward in wire order. -/
theorem claim_C1_amended (isValid : List Nat → Bool) (ekt : Nat) (msg : List Nat)
    (count off s : Nat)
    (hv : bVarInt msg = (count, off)) (hoff : 0 < off)
    (hs1 : 1 ≤ s) (hs2 : s + 3 ≤ count)
    (hlen : msg.length = off + 81 * s + 121 * (count - s))
    (hpre : ∀ i, i < s → 0 < tsAt81 msg off i ∧ tsAt81 msg off i < KAWPOW_ActivationTime)
    (hsuf : ∀ i, i < count → s ≤ i →
      KAWPOW_ActivationTime ≤ uint32GetLE msg (off + 81 * s + 121 * (i - s) + 68))
    (hekt : ekt ≤ KAWPOW_ActivationTime + 604800 + BLOCK_MAX_TIME_DRIFT)
    (hval : ∀ i, i < count →
      isValid (headerSliceAt msg off s (off + 81 * s) i) = true) :
    (PeerAcceptHeadersMessage isValid ekt msg).r = true ∧
    (PeerAcceptHeadersMessage isValid ekt msg).scan.startNewHeader = s ∧
    (PeerAcceptHeadersMessage isValid ekt msg).scan.startNewHeaderSize = off + 81 * s ∧
    (PeerAcceptHeadersMessage isValid ekt msg).relayed =
      (List.range count).map (headerSliceAt msg off s (off + 81 * s)) := by
  have hsufs : KAWPOW_ActivationTime ≤ tsAt81 msg off s := by
    have := hsuf s (by omega) le_rfl
    simpa [tsAt81] using this
  have hscan := headersScanFrom_straddle msg count off s hs1 hs2 hlen hpre hsufs
  have hT : KAWPOW_ActivationTime ≤
      (scanTail msg (off + 81 * s) count (count + 1) s 0 (tsAt81 msg off s)).2.2 := by
    refine scanTail_pred msg (off + 81 * s) count s _ ?_ (count + 1) s 0 _ le_rfl
      (by omega) hsufs
    intro j hj
    have := hsuf (s + j) (by omega) (by omega)
    simpa [Nat.add_sub_cancel_left] using this
  have hACT : 0 < KAWPOW_ActivationTime := by decide
  have hguard : ¬(off = 0 ∨ msg.length < off + 81 * count) := by
    rw [hlen]
    push_neg
    constructor
    · omega
    · have : 81 * count ≤ 81 * s + 121 * (count - s) := by
        have : 81 * count = 81 * s + 81 * (count - s) := by omega
        omega
      omega
  have hbig : 0 < (scanTail msg (off + 81 * s) count (count + 1) s 0
        (tsAt81 msg off s)).2.2 ∧
      ekt ≤ (scanTail msg (off + 81 * s) count (count + 1) s 0
        (tsAt81 msg off s)).2.2 + 604800 + BLOCK_MAX_TIME_DRIFT := by
    constructor
    · omega
    · omega
  have hrl := relayLoop_all isValid msg off s (off + 81 * s) count hval (count + 1) 0
    (by omega)
  simp only [PeerAcceptHeadersMessage, hv]
  rw [if_neg hguard, hscan]
  dsimp only
  rw [if_pos (Or.inr hbig), if_pos hbig, hrl]
  simp

set_option maxRecDepth 100000 in
/-- Counterexample to C1 as stated: a straddling batch whose suffix holds
a single 121-byte header.  The detection guard off + 81·(count+1) <
msgLen does not fire, so the acceptor records startNewHeader = count + 1
(not the index 1 of the first post-activation header) and parses the
post-activation header as an 81-byte record. -/
theorem claim_C1_counterexample :
    (tsAt81 exMsgC1c 1 0 < KAWPOW_ActivationTime ∧
      KAWPOW_ActivationTime ≤ uint32GetLE exMsgC1c (1 + 81 + 68) ∧
      exMsgC1c.length = 1 + 81 + 121) ∧
    (PeerAcceptHeadersMessage allValid 0 exMsgC1c).scan.startNewHeader = 3 ∧
    (PeerAcceptHeadersMessage allValid 0 exMsgC1c).r = true ∧
    ((PeerAcceptHeadersMessage allValid 0 exMsgC1c).relayed.getD 1 []).length = 81 := by
  decide

set_option maxRecDepth 100000 in
/-- Witness for the amended C1: one classical header followed by three
post-activation headers. -/
theorem claim_C1_witness :
    (bVarInt exMsgC1w = (4, 1) ∧
      exMsgC1w.length = 1 + 81 * 1 + 121 * (4 - 1) ∧
      (∀ i, i < 1 → 0 < tsAt81 exMsgC1w 1 i ∧
        tsAt81 exMsgC1w 1 i < KAWPOW_ActivationTime) ∧
      (∀ i, i < 4 → 1 ≤ i →
        KAWPOW_ActivationTime ≤ uint32GetLE exMsgC1w (1 + 81 * 1 + 121 * (i - 1) + 68))) ∧
    (PeerAcceptHeadersMessage allValid 0 exMsgC1w).r = true ∧
    (PeerAcceptHeadersMessage allValid 0 exMsgC1w).scan.startNewHeader = 1 ∧
    (PeerAcceptHeadersMessage allValid 0 exMsgC1w).scan.startNewHeaderSize = 1 + 81 * 1 ∧
    (PeerAcceptHeadersMessage allValid 0 exMsgC1w).relayed =
      (List.range 4).map (headerSliceAt exMsgC1w 1 1 (1 + 81 * 1)) := by
  have := claim_C1_amended allValid 0 exMsgC1w 4 1 1 (by decide) (by decide) (by decide)
    (by decide) (by decide) (by decide) (by decide) (by decide) (by decide)
  exact ⟨⟨by decide, by decide, by decide, by decide⟩, this.1, this.2.1, this.2.2.1,
    this.2.2.2⟩

/-! ### C2: locator derivation on follow-up requests -/

/-- The scan state on a batch where the 121-byte detection guard does not
fire (msgLen ≤ off + 81·(count+1)): startNewHeader stays count + 1,
timestamp_last keeps its timestamp_first initialisation, and the final
`timestamp` is the 81-byte-stride read of the last header. -/
theorem headersScanFrom_classical (msg : List Nat) (count off : Nat) (h1 : 0 < count)
    (hnd : msg.length ≤ off + 81 * (count + 1)) :
    headersScanFrom msg msg.length count off =
      { startNewHeader := count + 1, startNewHeaderSize := 0,
        timestampFirst := uint32GetLE msg (off + 68),
        timestampLast := uint32GetLE msg (off + 68),
        timestamp := uint32GetLE msg (off + 81 * (count - 1) + 68) } := by
  simp only [headersScanFrom]
  rw [if_neg (not_lt.mpr hnd), if_pos h1, if_pos h1]

/-- C2 (amended): on a classical batch (all timestamps below the KAWPOW
activation, detection guard off) that triggers a follow-up request, the
hashing era of BOTH locators is chosen by a single timestamp, not per
header: when the walk condition on the last scanned timestamp holds, a
getblocks goes out whose locators[0] is the era hash — by the walked
timestamp — of the 80-byte header at the walk's final index minus one
(not necessarily the last header of the batch), and whose locators[1] is
the era hash — by the LAST header's timestamp — of the first header;
otherwise a getheaders goes out whose locators[0] and locators[1] are the
era hashes, both by the last header's timestamp, of the last and first
headers. -/
theorem claim_C2_amended (isValid : List Nat → Bool) (ekt : Nat) (msg : List Nat)
    (count off : Nat)
    (hv : bVarInt msg = (count, off)) (hoff : 0 < off) (h1 : 1 ≤ count)
    (hlen : msg.length = off + 81 * count)
    (hlt : ∀ i, i < count → uint32GetLE msg (off + 81 * i + 68) < KAWPOW_ActivationTime)
    (htrig : 2000 ≤ count ∨ (0 < uint32GetLE msg (off + 81 * (count - 1) + 68) ∧
      ekt ≤ uint32GetLE msg (off + 81 * (count - 1) + 68) + 604800 +
        BLOCK_MAX_TIME_DRIFT)) :
    (PeerAcceptHeadersMessage isValid ekt msg).sent =
      [if 0 < uint32GetLE msg (off + 81 * (count - 1) + 68) ∧
          ekt ≤ uint32GetLE msg (off + 81 * (count - 1) + 68) + 604800 +
            BLOCK_MAX_TIME_DRIFT
       then
         SentMsg.getblocks
           (eraHash (walkLast msg off (count + 1) 0 count ekt (count + 2) 1
               (walkRead msg off (count + 1) 0 count 0)).2
             (slice msg (off + 81 * ((walkLast msg off (count + 1) 0 count ekt (count + 2) 1
               (walkRead msg off (count + 1) 0 count 0)).1 - 1)) 80))
           (eraHash (uint32GetLE msg (off + 81 * (count - 1) + 68)) (slice msg off 80))
       else
         SentMsg.getheaders
           (eraHash (uint32GetLE msg (off + 81 * (count - 1) + 68))
             (slice msg (off + 81 * (count - 1)) 80))
           (eraHash (uint32GetLE msg (off + 81 * (count - 1) + 68))
             (slice msg off 80))] := by
  have hACT : (0 : Nat) < KAWPOW_ActivationTime := by decide
  have hguard : ¬(off = 0 ∨ msg.length < off + 81 * count) := by
    push_neg
    exact ⟨by omega, by omega⟩
  have hcl := headersScanFrom_classical msg count off (by omega) (by omega)
  have hread : ∀ last, walkRead msg off (count + 1) 0 count last < KAWPOW_ActivationTime := by
    intro last
    unfold walkRead
    by_cases hlast : last + 1 < count
    · rw [if_pos hlast, if_pos (by omega : last < count + 1)]
      exact hlt (last + 1) hlast
    · rw [if_neg hlast]
      exact hACT
  have hw2 : (walkLast msg off (count + 1) 0 count ekt (count + 2) 1
      (walkRead msg off (count + 1) 0 count 0)).2 < KAWPOW_ActivationTime :=
    walkLast_pred msg off (count + 1) 0 count ekt (fun t => t < KAWPOW_ActivationTime)
      hread (count + 2) 1 _ (hread 0)
  have hwloc : walkLocator msg off (count + 1) 0
      (walkLast msg off (count + 1) 0 count ekt (count + 2) 1
        (walkRead msg off (count + 1) 0 count 0)) =
      eraHash (walkLast msg off (count + 1) 0 count ekt (count + 2) 1
          (walkRead msg off (count + 1) 0 count 0)).2
        (slice msg (off + 81 * ((walkLast msg off (count + 1) 0 count ekt (count + 2) 1
          (walkRead msg off (count + 1) 0 count 0)).1 - 1)) 80) := by
    simp only [walkLocator, eraHash]
    rw [if_neg (not_le.mpr hw2)]
  have hfst : uint32GetLE msg (off + 68) < KAWPOW_ActivationTime := by
    have := hlt 0 (by omega)
    simpa using this
  have hls : headersLocators msg msg.length count off
      { startNewHeader := count + 1, startNewHeaderSize := 0,
        timestampFirst := uint32GetLE msg (off + 68),
        timestampLast := uint32GetLE msg (off + 68),
        timestamp := uint32GetLE msg (off + 81 * (count - 1) + 68) } =
      (eraHash (uint32GetLE msg (off + 81 * (count - 1) + 68))
         (slice msg (off + 81 * (count - 1)) 80),
       eraHash (uint32GetLE msg (off + 81 * (count - 1) + 68)) (slice msg off 80)) := by
    simp only [headersLocators, eraHash]
    rw [if_neg (fun hc => absurd hc.1 (not_le.mpr hfst)),
      if_neg (fun hc => absurd hc.2 (not_lt.mpr hfst.le))]
    by_cases hv2 : X16RV2ActivationTime ≤ uint32GetLE msg (off + 81 * (count - 1) + 68)
    · rw [if_pos hv2, if_pos hv2, if_pos hv2]
    · rw [if_neg hv2, if_neg hv2, if_neg hv2]
  simp only [PeerAcceptHeadersMessage, hv]
  rw [if_neg hguard, hcl]
  dsimp only
  rw [if_pos htrig, hls]
  by_cases hgb : 0 < uint32GetLE msg (off + 81 * (count - 1) + 68) ∧
      ekt ≤ uint32GetLE msg (off + 81 * (count - 1) + 68) + 604800 + BLOCK_MAX_TIME_DRIFT
  · rw [if_pos hgb, if_pos hgb]
    dsimp only
    rw [hwloc]
  · rw [if_neg hgb, if_neg hgb]

set_option maxRecDepth 100000 in
/-- Counterexample to C2 as stated: a classical two-header batch whose
first header predates the X16Rv2 activation while the last is inside the
X16Rv2 era.  The follow-up getblocks derives locators[1] with X16Rv2 —
the last header's era, not the first header's X16R — and locators[0]
hashes the FIRST header's 80 bytes (the walk stops at index 1), not the
last header of the batch. -/
theorem claim_C2_counterexample :
    (uint32GetLE exMsgC2 (1 + 68) < X16RV2ActivationTime ∧
      X16RV2ActivationTime ≤ uint32GetLE exMsgC2 (1 + 81 + 68) ∧
      uint32GetLE exMsgC2 (1 + 81 + 68) < KAWPOW_ActivationTime ∧
      bVarInt exMsgC2 = (2, 1)) ∧
    (PeerAcceptHeadersMessage allValid 0 exMsgC2).sent =
      [SentMsg.getblocks (HashExpr.x16rv2 (slice exMsgC2 1 80))
        (HashExpr.x16rv2 (slice exMsgC2 1 80))] ∧
    HashExpr.x16rv2 (slice exMsgC2 1 80) ≠ HashExpr.x16r (slice exMsgC2 1 80) ∧
    slice exMsgC2 1 80 ≠ slice exMsgC2 (1 + 81) 80 := by
  decide

set_option maxRecDepth 100000 in
/-- Witness for the amended C2: a one-header classical batch in the
X16Rv2 era with earliestKeyTime 0 sends a getblocks whose locators[0] is
the X16R hash (walked timestamp 0) and locators[1] the X16Rv2 hash of
that header. -/
theorem claim_C2_witness :
    (bVarInt exMsgC2w = (1, 1) ∧ exMsgC2w.length = 1 + 81 * 1 ∧
      (∀ i, i < 1 → uint32GetLE exMsgC2w (1 + 81 * i + 68) < KAWPOW_ActivationTime) ∧
      (2000 ≤ 1 ∨ (0 < uint32GetLE exMsgC2w (1 + 81 * (1 - 1) + 68) ∧
        0 ≤ uint32GetLE exMsgC2w (1 + 81 * (1 - 1) + 68) + 604800 +
          BLOCK_MAX_TIME_DRIFT))) ∧
    (PeerAcceptHeadersMessage allValid 0 exMsgC2w).sent =
      [SentMsg.getblocks (HashExpr.x16r (slice exMsgC2w 1 80))
        (HashExpr.x16rv2 (slice exMsgC2w 1 80))] := by
  refine ⟨⟨by decide, by decide, by decide, by decide⟩, ?_⟩
  have h := claim_C2_amended allValid 0 exMsgC2w 1 1 (by decide) (by decide) (by decide)
    (by decide) (by decide) (by decide)
  exact h.trans (by decide)

end RavenPeer
